import Mathlib

/-!
Verification of the response-normalization pipeline of the Code Visualizer
repository (`analyzer.py`), as a shallow embedding over `List Char` strings.

Python strings are modelled as `List Char`; Python dicts produced by JSON
parsing are modelled as association lists in occurrence order, with lookup
taking the last binding (matching CPython's last-key-wins for duplicate JSON
keys); raising an exception is modelled as `Option`/`Except` failure.

The standard library `json.loads` is modelled by a strict recursive-descent
parser (`pyJsonLoads false`) over a `Json` value type covering null, booleans,
integer numbers, strings (with the common backslash escapes), arrays and
objects.  The external `json_repair.repair_json` followed by the final
`json.loads` of `safe_json_loads` is modelled, from the spec's description of
the repair step, by the same grammar made tolerant of one trailing comma
before a closing bracket or brace (`pyJsonLoads true`).
-/

/-- The double-quote character `"`. -/
def quoteChar : Char := Char.ofNat 34

/-- The backslash character. -/
def backslashChar : Char := Char.ofNat 92

/-- The backtick character. -/
def backquoteChar : Char := Char.ofNat 96

/-- The opening curly brace character. -/
def lbraceChar : Char := Char.ofNat 123

/-- The closing curly brace character. -/
def rbraceChar : Char := Char.ofNat 125

/-- Newline. -/
def nlChar : Char := Char.ofNat 10

/-- Horizontal tab. -/
def tabChar : Char := Char.ofNat 9

/-- Carriage return. -/
def crChar : Char := Char.ofNat 13

/-- Vertical tab (part of Python's `str.strip` whitespace). -/
def vtChar : Char := Char.ofNat 11

/-- Form feed. -/
def ffChar : Char := Char.ofNat 12

/-- Backspace (the `\b` JSON escape). -/
def bsChar : Char := Char.ofNat 8

/-- Convert a Lean string literal to the `List Char` model of Python strings. -/
def st (s : String) : List Char := s.data

/-- The whitespace characters JSON allows between tokens (` `, tab, newline,
carriage return), as accepted by `json.loads`. -/
def isWs (c : Char) : Bool := (c == ' ') || (c == tabChar) || (c == nlChar) || (c == crChar)

/-- The characters Python's `str.strip()` removes by default. -/
def isPySpace (c : Char) : Bool := isWs c || (c == vtChar) || (c == ffChar)

/-- Drop leading JSON whitespace. -/
def skipWs (s : List Char) : List Char := s.dropWhile isWs

/-- Python's `text.strip()`: remove leading and trailing whitespace. -/
def pyStrip (s : List Char) : List Char :=
  ((s.dropWhile isPySpace).reverse.dropWhile isPySpace).reverse

/-- The character class `[a-zA-Z0-9]` of the fence-stripping regex. -/
def isAsciiAlnum (c : Char) : Bool := c.isAlpha || c.isDigit

/-- A JSON value as produced by the modelled `json.loads`: numbers are
restricted to integers (the repository's prompts and normalization only ever
handle integer indices and line numbers).  Objects keep their members in
occurrence order; lookups take the last binding, matching Python dicts built
from JSON text with duplicate keys. -/
inductive Json where
  | null : Json
  | bool : Bool → Json
  | num : Int → Json
  | str : List Char → Json
  | arr : List Json → Json
  | obj : List (List Char × Json) → Json

/-- Consume a maximal run of ASCII digits, accumulating their value. -/
def parseDigits : Nat → List Char → Nat × List Char
  | acc, [] => (acc, [])
  | acc, c :: rest =>
    if c.isDigit then parseDigits (acc * 10 + (c.toNat - 48)) rest else (acc, c :: rest)

/-- The digit character for `d < 10`. -/
def digitChar (d : Nat) : Char := Char.ofNat (48 + d)

/-- Decimal digits of a natural number, most significant first.  The fuel is
structural so that the function evaluates definitionally; `natToDigits`
supplies `n + 1`, which always suffices. -/
def natToDigitsAux : Nat → Nat → List Char → List Char
  | 0, _, acc => acc
  | fuel + 1, n, acc =>
    if n < 10 then digitChar n :: acc
    else natToDigitsAux fuel (n / 10) (digitChar (n % 10) :: acc)

/-- Decimal digits of a natural number, most significant first. -/
def natToDigits (n : Nat) : List Char := natToDigitsAux (n + 1) n []

/-- Canonical decimal rendering of an integer, as `json.dumps` would print it. -/
def serializeInt (n : Int) : List Char :=
  if n < 0 then '-' :: natToDigits n.natAbs else natToDigits n.toNat

/-- Parse a JSON integer (optional minus sign followed by digits). -/
def parseNum : List Char → Option (Int × List Char)
  | [] => none
  | c :: r =>
    if c == '-' then
      match r with
      | [] => none
      | c2 :: _ =>
        if c2.isDigit then
          let p := parseDigits 0 r
          some (-(p.1 : Int), p.2)
        else none
    else if c.isDigit then
      let p := parseDigits 0 (c :: r)
      some ((p.1 : Int), p.2)
    else none

/-- Resolve a backslash escape inside a JSON string (the `\u` form is outside
the modelled subset). -/
def unescapeChar (e : Char) : Option Char :=
  if e = quoteChar then some quoteChar
  else if e = backslashChar then some backslashChar
  else if e = '/' then some '/'
  else if e = 'n' then some nlChar
  else if e = 't' then some tabChar
  else if e = 'r' then some crChar
  else if e = 'b' then some bsChar
  else if e = 'f' then some ffChar
  else none

/-- Escape one character for inclusion in a JSON string literal. -/
def escapeChar (c : Char) : List Char :=
  if c = quoteChar then [backslashChar, quoteChar]
  else if c = backslashChar then [backslashChar, backslashChar]
  else if c = nlChar then [backslashChar, 'n']
  else if c = tabChar then [backslashChar, 't']
  else if c = crChar then [backslashChar, 'r']
  else [c]

/-- Escape a whole string body. -/
def escapeStr : List Char → List Char
  | [] => []
  | c :: cs => escapeChar c ++ escapeStr cs

/-- Canonical rendering of a JSON string literal, quotes included. -/
def serializeStr (s : List Char) : List Char := quoteChar :: (escapeStr s ++ [quoteChar])

/-- Parse the body of a JSON string, after the opening quote, up to and
including the closing quote. -/
def parseStrBody : List Char → Option (List Char × List Char)
  | [] => none
  | c :: rest =>
    if c = quoteChar then some ([], rest)
    else if c = backslashChar then
      match rest with
      | [] => none
      | e :: rest2 =>
        match unescapeChar e, parseStrBody rest2 with
        | some u, some p => some (u :: p.1, p.2)
        | _, _ => none
    else
      match parseStrBody rest with
      | some p => some (c :: p.1, p.2)
      | none => none

mutual
/-- Parse one JSON value.  `len` is the leniency flag: `false` models the
strict `json.loads`; `true` additionally accepts one trailing comma before a
closing `]` or brace, modelling (from the spec) the `json_repair` pass that
precedes the final parse in `safe_json_loads`.  Fuel decreases on every
recursive call; `pyJsonLoads` supplies one more than the input length. -/
def parseVal (len : Bool) : Nat → List Char → Option (Json × List Char)
  | 0, _ => none
  | fuel + 1, s =>
    match skipWs s with
    | [] => none
    | c :: r =>
      if c = 'n' then
        match r with
        | 'u' :: 'l' :: 'l' :: r2 => some (Json.null, r2)
        | _ => none
      else if c = 't' then
        match r with
        | 'r' :: 'u' :: 'e' :: r2 => some (Json.bool true, r2)
        | _ => none
      else if c = 'f' then
        match r with
        | 'a' :: 'l' :: 's' :: 'e' :: r2 => some (Json.bool false, r2)
        | _ => none
      else if c = quoteChar then
        match parseStrBody r with
        | some p => some (Json.str p.1, p.2)
        | none => none
      else if c = '[' then
        match skipWs r with
        | [] => none
        | c2 :: r2 =>
          if c2 = ']' then some (Json.arr [], r2)
          else
            match parseItems len fuel (c2 :: r2) with
            | some p => some (Json.arr p.1, p.2)
            | none => none
      else if c = lbraceChar then
        match skipWs r with
        | [] => none
        | c2 :: r2 =>
          if c2 = rbraceChar then some (Json.obj [], r2)
          else
            match parseMembers len fuel (c2 :: r2) with
            | some p => some (Json.obj p.1, p.2)
            | none => none
      else if (c == '-') || c.isDigit then
        match parseNum (c :: r) with
        | some p => some (Json.num p.1, p.2)
        | none => none
      else none

/-- Parse one or more comma-separated array items together with the closing
`]`.  The empty array is handled in `parseVal`. -/
def parseItems (len : Bool) : Nat → List Char → Option (List Json × List Char)
  | 0, _ => none
  | fuel + 1, s =>
    match parseVal len fuel s with
    | none => none
    | some (v, r) =>
      match skipWs r with
      | [] => none
      | c :: r2 =>
        if c = ',' then
          match skipWs r2 with
          | [] => none
          | c2 :: r3 =>
            if c2 = ']' then (if len then some ([v], r3) else none)
            else
              match parseItems len fuel (c2 :: r3) with
              | some p => some (v :: p.1, p.2)
              | none => none
        else if c = ']' then some ([v], r2)
        else none

/-- Parse one or more comma-separated object members together with the
closing brace.  The empty object is handled in `parseVal`. -/
def parseMembers (len : Bool) : Nat → List Char → Option (List (List Char × Json) × List Char)
  | 0, _ => none
  | fuel + 1, s =>
    match s with
    | [] => none
    | c :: r =>
      if c = quoteChar then
        match parseStrBody r with
        | none => none
        | some (k, r1) =>
          match skipWs r1 with
          | [] => none
          | c1 :: r2 =>
            if c1 = ':' then
              match parseVal len fuel r2 with
              | none => none
              | some (v, r3) =>
                match skipWs r3 with
                | [] => none
                | c2 :: r4 =>
                  if c2 = ',' then
                    match skipWs r4 with
                    | [] => none
                    | c3 :: r5 =>
                      if c3 = rbraceChar then (if len then some ([(k, v)], r5) else none)
                      else
                        match parseMembers len fuel (c3 :: r5) with
                        | some p => some ((k, v) :: p.1, p.2)
                        | none => none
                  else if c2 = rbraceChar then some ([(k, v)], r4)
                  else none
            else none
      else none
end

/-- Parse a complete document: one value with at most whitespace after it,
exactly like `json.loads` (which rejects trailing characters). -/
def pyJsonLoads (len : Bool) (s : List Char) : Option Json :=
  match parseVal len (s.length + 1) s with
  | some (v, rest) => if (skipWs rest).isEmpty then some v else none
  | none => none

/-- Model of the strict `json.loads` call. -/
def json_loads (s : List Char) : Option Json := pyJsonLoads false s

/-- Modelled from the spec: the external `json_repair.repair_json` (whose
source is not part of this repository) composed with the final `json.loads`
of `safe_json_loads`.  Per the spec's repair-step description it "fixes …
trailing commas" and produces a best-guess well-formed JSON string that is
then parsed; the composition is modelled as a parse of the same grammar that
tolerates a trailing comma before a closing bracket or brace. -/
def repairedParse (s : List Char) : Option Json := pyJsonLoads true s

/-- The first alternative of the regex of `_strip_code_fences`
(`^<fence>[a-zA-Z0-9]*\n`): remove a leading fence line when it matches. -/
def fenceOpenStrip (t : List Char) : List Char :=
  match t with
  | c1 :: c2 :: c3 :: rest =>
    if c1 = backquoteChar && c2 = backquoteChar && c3 = backquoteChar then
      match rest.dropWhile isAsciiAlnum with
      | c :: r => if c = nlChar then r else t
      | [] => t
    else t
  | _ => t

/-- The second alternative of the regex (`\n<fence>$`): remove a trailing
newline-fence when present at the very end. -/
def fenceCloseStrip (u : List Char) : List Char :=
  match u.reverse with
  | c1 :: c2 :: c3 :: c4 :: r =>
    if c1 = backquoteChar && c2 = backquoteChar && c3 = backquoteChar && c4 = nlChar then
      r.reverse
    else u
  | _ => u

/-- Model of `_strip_code_fences` (analyzer.py lines 113-117): if the stripped
text starts with a triple backtick, remove the first fence line and a trailing
fence from the stripped text; otherwise return the text unchanged. -/
def stripCodeFences (text : List Char) : List Char :=
  let t := pyStrip text
  if t.take 3 = st "```" then fenceCloseStrip (fenceOpenStrip t) else text

/-- Python's `text.find(ch)` as an optional index. -/
def pyFindIdx (l : List Char) (c : Char) : Option Nat := l.findIdx? (fun x => x = c)

/-- Python's `text.rfind(ch)` as an optional index. -/
def pyRFindIdx (l : List Char) (c : Char) : Option Nat :=
  (l.reverse.findIdx? (fun x => x = c)).map (fun i => l.length - 1 - i)

/-- Model of `_extract_json_block` (analyzer.py lines 125-130): the inclusive
substring from the first opening brace to the last closing brace, when the
latter occurs after the former. -/
def extractJsonBlock (text : List Char) : Option (List Char) :=
  match pyFindIdx text lbraceChar, pyRFindIdx text rbraceChar with
  | some s, some e => if s < e then some ((text.drop s).take (e + 1 - s)) else none
  | _, _ => none

/-- The candidate string handed to the repair-and-reparse stage of
`safe_json_loads`: the fence-stripped text's brace span, or the whole
fence-stripped text when no brace span exists. -/
def jsonCandidate (content : List Char) : List Char :=
  let clean := stripCodeFences content
  (extractJsonBlock clean).getD clean

/-- Model of `safe_json_loads` (analyzer.py lines 133-144): first a strict
parse of the full text; on failure, strip code fences, extract the brace
span, repair and parse once.  A `none` result models the uncaught final
`json.loads` exception — the `MalformedModelOutput` failure of the spec. -/
def safe_json_loads (content : List Char) : Option Json :=
  match json_loads content with
  | some v => some v
  | none => repairedParse (jsonCandidate content)

mutual
/-- Canonical compact rendering of a JSON value (double quotes, no extra
whitespace, no trailing commas): the shape `json.dumps` would emit, used to
state what "a strictly valid JSON object" denotes. -/
def serializeJson : Json → List Char
  | Json.null => st "null"
  | Json.bool true => st "true"
  | Json.bool false => st "false"
  | Json.num n => serializeInt n
  | Json.str s => serializeStr s
  | Json.arr xs => '[' :: (serializeItemsJ xs ++ [']'])
  | Json.obj kvs => lbraceChar :: (serializeMembersJ kvs ++ [rbraceChar])

/-- Comma-separated renderings of array items. -/
def serializeItemsJ : List Json → List Char
  | [] => []
  | [v] => serializeJson v
  | v :: vs => serializeJson v ++ ',' :: serializeItemsJ vs

/-- Comma-separated renderings of object members. -/
def serializeMembersJ : List (List Char × Json) → List Char
  | [] => []
  | [(k, v)] => serializeStr k ++ ':' :: serializeJson v
  | (k, v) :: ms => serializeStr k ++ ':' :: serializeJson v ++ ',' :: serializeMembersJ ms
end

/-- Wrap a text in a triple-backtick fenced code block annotated `json`. -/
def fenceWrap (s : List Char) : List Char := st "```json" ++ nlChar :: (s ++ nlChar :: st "```")

/-- The canonical rendering of a nonempty object with one trailing comma
inserted before its closing brace. -/
def serializeObjTrailingComma (kvs : List (List Char × Json)) : List Char :=
  lbraceChar :: (serializeMembersJ kvs ++ [',', rbraceChar])

/-- The apostrophe character, for Python `repr` of strings. -/
def apostChar : Char := Char.ofNat 39

/-- Escape a string body for Python `repr` with quote character `q`. -/
def reprEscape (q : Char) : List Char → List Char
  | [] => []
  | c :: cs =>
    (if c = backslashChar then [backslashChar, backslashChar]
     else if c = q then [backslashChar, q]
     else [c]) ++ reprEscape q cs

/-- Python `repr` of a string: single quotes, switching to double quotes when
the text contains an apostrophe but no double quote. -/
def pyReprStr (s : List Char) : List Char :=
  let q := if s.contains apostChar && !(s.contains quoteChar) then quoteChar else apostChar
  q :: (reprEscape q s ++ [q])

mutual
/-- Python `repr` of a parsed JSON value (`None`/`True`/`False`, decimal
integers, quoted strings, bracketed lists, braced dicts). -/
def pyRepr : Json → List Char
  | Json.null => st "None"
  | Json.bool true => st "True"
  | Json.bool false => st "False"
  | Json.num n => serializeInt n
  | Json.str s => pyReprStr s
  | Json.arr xs => '[' :: (pyReprItems xs ++ [']'])
  | Json.obj kvs => lbraceChar :: (pyReprMembers kvs ++ [rbraceChar])

/-- Comma-space separated `repr`s of list elements. -/
def pyReprItems : List Json → List Char
  | [] => []
  | [v] => pyRepr v
  | v :: vs => pyRepr v ++ ',' :: ' ' :: pyReprItems vs

/-- Comma-space separated `repr`s of dict members. -/
def pyReprMembers : List (List Char × Json) → List Char
  | [] => []
  | [(k, v)] => pyReprStr k ++ ':' :: ' ' :: pyRepr v
  | (k, v) :: ms => pyReprStr k ++ ':' :: ' ' :: pyRepr v ++ ',' :: ' ' :: pyReprMembers ms
end

/-- Python `str()` applied to a parsed JSON value: strings pass through
unchanged, everything else renders as its `repr`.  Total — `str()` never
raises. -/
def pyStr (j : Json) : List Char :=
  match j with
  | Json.str s => s
  | _ => pyRepr j

/-- Value of a digit run, most significant first. -/
def digitsToNat (ds : List Char) : Nat := ds.foldl (fun a c => a * 10 + (c.toNat - 48)) 0

/-- Python `int()` applied to a string: strip whitespace, allow one sign,
then require decimal digits (the underscore-grouping extension is outside the
modelled subset).  `none` models the `ValueError`. -/
def pyIntOfStr (s : List Char) : Option Int :=
  match pyStrip s with
  | [] => none
  | c :: ds =>
    if c = '-' then
      if !ds.isEmpty && ds.all Char.isDigit then some (-(digitsToNat ds : Int)) else none
    else if c = '+' then
      if !ds.isEmpty && ds.all Char.isDigit then some ((digitsToNat ds : Int)) else none
    else if (c :: ds).all Char.isDigit then some ((digitsToNat (c :: ds) : Int)) else none

/-- Python `int()` applied to a parsed JSON value: integers pass through,
booleans become 0/1, strings are parsed, everything else raises
(`TypeError`), modelled as `none`. -/
def pyInt (j : Json) : Option Int :=
  match j with
  | Json.num n => some n
  | Json.bool b => some (if b then 1 else 0)
  | Json.str s => pyIntOfStr s
  | _ => none

/-- Python truthiness of a parsed JSON value. -/
def pyTruthy (j : Json) : Bool :=
  match j with
  | Json.null => false
  | Json.bool b => b
  | Json.num n => n != 0
  | Json.str s => !s.isEmpty
  | Json.arr xs => !xs.isEmpty
  | Json.obj kvs => !kvs.isEmpty

/-- The `x or []` idiom: a falsy value is replaced by an empty list. -/
def orEmptyList (j : Json) : Json := if pyTruthy j then j else Json.arr []

/-- The `x or 0` idiom. -/
def orZero (j : Json) : Json := if pyTruthy j then j else Json.num 0

/-- The `x or ""` idiom. -/
def orEmptyStr (j : Json) : Json := if pyTruthy j then j else Json.str []

/-- Dict lookup on an association list in occurrence order; the last binding
wins, matching the Python dict that `json.loads` builds from duplicate keys. -/
def dictGet : List (List Char × Json) → List Char → Option Json
  | [], _ => none
  | (k0, v0) :: rest, k =>
    match dictGet rest k with
    | some v => some v
    | none => if k0 = k then some v0 else none

/-- Lookup a key of a JSON value known to be an object (`none` otherwise). -/
def jfield (j : Json) (k : List Char) : Option Json :=
  match j with
  | Json.obj kvs => dictGet kvs k
  | _ => none

/-- Python `dict.setdefault`: append the default binding when the key is
absent. -/
def setdefault (kvs : List (List Char × Json)) (k : List Char) (v : Json) :
    List (List Char × Json) :=
  match dictGet kvs k with
  | some _ => kvs
  | none => kvs ++ [(k, v)]

/-- Python `d[k] = v`: bind `k` to `v`, dropping earlier bindings of `k`. -/
def dictSet (kvs : List (List Char × Json)) (k : List Char) (v : Json) :
    List (List Char × Json) :=
  kvs.filter (fun p => !(p.1 == k)) ++ [(k, v)]

/-- The twelve step fields recognized by `analyze_code_with_llm`
(analyzer.py lines 176-192), in construction order. -/
def recognizedStepKeys : List (List Char) :=
  [st "step", st "line", st "operation", st "explanation", st "variables",
   st "call_stack", st "outputs", st "memory_state", st "control_flow",
   st "data_structures", st "execution_context", st "next_action"]

/-- The per-step record built by the loop body of `analyze_code_with_llm`
(analyzer.py lines 176-192): copy each recognized field, defaulting `step` to
the 1-based position `i`, `line` to `None`, mapping-valued fields to an empty
dict, `call_stack` to an empty list and the textual fields to the empty
string.  A non-dict element makes `step.get` raise (`none`). -/
def normalizeStep (i : Int) (stepJ : Json) : Option Json :=
  match stepJ with
  | Json.obj kvs => some (Json.obj
      [(st "step", (dictGet kvs (st "step")).getD (Json.num i)),
       (st "line", (dictGet kvs (st "line")).getD Json.null),
       (st "operation", (dictGet kvs (st "operation")).getD (Json.str [])),
       (st "explanation", (dictGet kvs (st "explanation")).getD (Json.str [])),
       (st "variables", (dictGet kvs (st "variables")).getD (Json.obj [])),
       (st "call_stack", (dictGet kvs (st "call_stack")).getD (Json.arr [])),
       (st "outputs", (dictGet kvs (st "outputs")).getD (Json.str [])),
       (st "memory_state", (dictGet kvs (st "memory_state")).getD (Json.obj [])),
       (st "control_flow", (dictGet kvs (st "control_flow")).getD (Json.str [])),
       (st "data_structures", (dictGet kvs (st "data_structures")).getD (Json.obj [])),
       (st "execution_context", (dictGet kvs (st "execution_context")).getD (Json.str [])),
       (st "next_action", (dictGet kvs (st "next_action")).getD (Json.str []))])
  | _ => none

/-- The `for i, step in enumerate(steps, start=1)` loop: normalize each
element with its 1-based position, failing if any element raises. -/
def normalizeStepsFrom : Int → List Json → Option (List Json)
  | _, [] => some []
  | i, s :: rest =>
    match normalizeStep i s with
    | none => none
    | some n =>
      match normalizeStepsFrom (i + 1) rest with
      | none => none
      | some ns => some (n :: ns)

/-- The post-parse shaping of `analyze_code_with_llm` (analyzer.py lines
172-193): `setdefault` for `language` and `summary`, the `or []` fallback for
`steps`, the normalization loop, and the reassignment of `steps`.  `none`
models an uncaught exception: `result` not being a dict (`setdefault`
raises), or `steps` being truthy but not a list (iteration or `step.get`
raises). -/
def shapeTrace (language : List Char) (result : Json) : Option Json :=
  match result with
  | Json.obj kvs0 =>
    let kvs1 := setdefault kvs0 (st "language") (Json.str language)
    let kvs2 := setdefault kvs1 (st "summary") (Json.str [])
    match orEmptyList ((dictGet kvs2 (st "steps")).getD (Json.arr [])) with
    | Json.arr steps =>
      match normalizeStepsFrom 1 steps with
      | some ns => some (Json.obj (dictSet kvs2 (st "steps") (Json.arr ns)))
      | none => none
    | _ => none
  | _ => none

/-- The per-issue record built by `analyze_errors_with_llm` (analyzer.py
lines 260-269): `type` is passed through `str()`, `line` through
`int(... or 0)` — which raises on a truthy non-numeric value — and the
remaining fields default to fixed strings. -/
def normalizeIssue (issueJ : Json) : Option Json :=
  match issueJ with
  | Json.obj kvs =>
    match pyInt (orZero ((dictGet kvs (st "line")).getD (Json.num 0))) with
    | none => none
    | some n => some (Json.obj
        [(st "type", Json.str (pyStr ((dictGet kvs (st "type")).getD (Json.str (st "logic"))))),
         (st "line", Json.num n),
         (st "title", (dictGet kvs (st "title")).getD (Json.str (st "Potential issue"))),
         (st "explanation", (dictGet kvs (st "explanation")).getD (Json.str [])),
         (st "suggestion", (dictGet kvs (st "suggestion")).getD (Json.str []))])
  | _ => none

/-- The issue-normalization loop. -/
def normalizeIssuesList : List Json → Option (List Json)
  | [] => some []
  | s :: rest =>
    match normalizeIssue s with
    | none => none
    | some n =>
      match normalizeIssuesList rest with
      | none => none
      | some ns => some (n :: ns)

/-- The post-parse shaping of `analyze_errors_with_llm` (analyzer.py lines
256-271). -/
def shapeErrors (parsed : Json) : Option Json :=
  match parsed with
  | Json.obj kvs =>
    match orEmptyList ((dictGet kvs (st "issues")).getD (Json.arr [])) with
    | Json.arr issues =>
      match normalizeIssuesList issues with
      | some ns =>
        some (Json.obj
          [(st "issues", Json.arr ns),
           (st "corrected_code", orEmptyStr ((dictGet kvs (st "corrected_code")).getD (Json.str [])))])
      | none => none
    | _ => none
  | _ => none

/-- The per-function record built by `analyze_complexity_with_llm`
(analyzer.py lines 334-344). -/
def normalizeFunction (fnJ : Json) : Option Json :=
  match fnJ with
  | Json.obj kvs => some (Json.obj
      [(st "name", (dictGet kvs (st "name")).getD (Json.str (st "main"))),
       (st "time_complexity", (dictGet kvs (st "time_complexity")).getD (Json.str (st "O(1)"))),
       (st "space_complexity", (dictGet kvs (st "space_complexity")).getD (Json.str (st "O(1)"))),
       (st "notes", (dictGet kvs (st "notes")).getD (Json.str [])),
       (st "loops", (dictGet kvs (st "loops")).getD (Json.arr [])),
       (st "recursions", (dictGet kvs (st "recursions")).getD (Json.arr []))])
  | _ => none

/-- The function-normalization loop. -/
def normalizeFunctionsList : List Json → Option (List Json)
  | [] => some []
  | s :: rest =>
    match normalizeFunction s with
    | none => none
    | some n =>
      match normalizeFunctionsList rest with
      | none => none
      | some ns => some (n :: ns)

/-- The post-parse shaping of `analyze_complexity_with_llm` (analyzer.py
lines 331-345). -/
def shapeComplexity (parsed : Json) : Option Json :=
  match parsed with
  | Json.obj kvs =>
    match orEmptyList ((dictGet kvs (st "functions")).getD (Json.arr [])) with
    | Json.arr fns =>
      match normalizeFunctionsList fns with
      | some ns => some (Json.obj [(st "functions", Json.arr ns)])
      | none => none
    | _ => none
  | _ => none

/-- The failure modes of an analysis invocation: the `RuntimeError` raised
when no credential is available (analyzer.py lines 154-156, 240-242,
315-317), the terminal `json.loads` failure inside `safe_json_loads` — the
spec's `MalformedModelOutput` — and an uncaught exception in the post-parse
shaping. -/
inductive AnalyzeError where
  | authenticationMissing : AnalyzeError
  | malformedModelOutput : AnalyzeError
  | shapingError : AnalyzeError

/-- The `if not api_key` guard: true when `get_groq_api_key` returned `None`
or an empty (falsy) string. -/
def pyFalsyKey : Option (List Char) → Bool
  | none => true
  | some s => s.isEmpty

/-- Model of `analyze_code_with_llm` (analyzer.py lines 147-194).  The
network call `llm.invoke` is abstracted: its reply text is the `reply`
argument, and the second component counts how many network calls were made.
The credential check precedes the call, so a missing key yields the
authentication error with zero calls. -/
def analyze_code_with_llm (apiKey : Option (List Char)) (reply : List Char)
    (language : List Char) : Except AnalyzeError Json × Nat :=
  if pyFalsyKey apiKey then (Except.error AnalyzeError.authenticationMissing, 0)
  else
    match safe_json_loads reply with
    | none => (Except.error AnalyzeError.malformedModelOutput, 1)
    | some result =>
      match shapeTrace language result with
      | none => (Except.error AnalyzeError.shapingError, 1)
      | some shaped => (Except.ok shaped, 1)

/-- Model of `analyze_errors_with_llm` (analyzer.py lines 233-271), abstracted
like `analyze_code_with_llm`. -/
def analyze_errors_with_llm (apiKey : Option (List Char)) (reply : List Char) :
    Except AnalyzeError Json × Nat :=
  if pyFalsyKey apiKey then (Except.error AnalyzeError.authenticationMissing, 0)
  else
    match safe_json_loads reply with
    | none => (Except.error AnalyzeError.malformedModelOutput, 1)
    | some parsed =>
      match shapeErrors parsed with
      | none => (Except.error AnalyzeError.shapingError, 1)
      | some shaped => (Except.ok shaped, 1)

/-- Model of `analyze_complexity_with_llm` (analyzer.py lines 308-345),
abstracted like `analyze_code_with_llm`. -/
def analyze_complexity_with_llm (apiKey : Option (List Char)) (reply : List Char) :
    Except AnalyzeError Json × Nat :=
  if pyFalsyKey apiKey then (Except.error AnalyzeError.authenticationMissing, 0)
  else
    match safe_json_loads reply with
    | none => (Except.error AnalyzeError.malformedModelOutput, 1)
    | some parsed =>
      match shapeComplexity parsed with
      | none => (Except.error AnalyzeError.shapingError, 1)
      | some shaped => (Except.ok shaped, 1)

/-- True when a steps-array element is a dict without a `step` key. -/
def stepKeyAbsent (s : Json) : Bool :=
  match s with
  | Json.obj kvs => (dictGet kvs (st "step")).isNone
  | _ => false

/-- The system instruction of `build_prompts` (analyzer.py lines 29-45),
verbatim. -/
def traceSystemPrompt : List Char :=
  st "You are Code Visualizer AI, an expert at analyzing code execution step by step. Your task is to create a detailed, accurate visualization of how code executes. Analyze every line, every operation, every variable change, and every control flow decision. Be extremely precise about variable values, memory states, and execution flow. For the summary, provide a comprehensive analysis that includes: 1) Clear explanation of the code's purpose and main functionality, 2) Detailed breakdown of each function and its role, 3) Algorithm logic and approach used, 4) Data flow and how variables are used throughout, 5) Expected outputs and behavior, 6) Key programming concepts demonstrated, 7) Time/space complexity analysis if applicable, 8) Educational insights about the code structure. Return ONLY valid JSON that can be parsed with Python json.loads(). No markdown, no explanations outside the JSON structure."

/-- The part of the user instruction of `build_prompts` that follows the
closing code delimiter (analyzer.py lines 52-109), verbatim; the second
interpolation of the language tag sits inside the schema description. -/
def tracePromptAfterCode (language : List Char) : List Char :=
  st "\n\nCreate a detailed step-by-step execution analysis. Return ONLY valid JSON with this exact structure:\n\x7b\n  \"language\": \"" ++ language ++
  st "\",\n  \"summary\": \"Comprehensive analysis including: 1) Code purpose and main functionality, 2) Function definitions and their roles, 3) Algorithm logic and approach, 4) Data flow and variable usage, 5) Expected outputs and behavior, 6) Key concepts demonstrated, 7) Complexity analysis if applicable\",\n  \"steps\": [\n    \x7b\n      \"step\": 1,\n      \"line\": 1,\n      \"operation\": \"Detailed operation name (e.g., 'Variable Declaration', 'Function Call', 'Conditional Check', 'Loop Iteration')\",\n      \"explanation\": \"Detailed explanation of what happens at this step, including the reasoning and context\",\n      \"variables\": \x7b \n        \"varName\": \"current_value\", \n        \"varName_type\": \"data_type\",\n        \"varName_address\": \"memory_location_if_relevant\"\n      \x7d,\n      \"call_stack\": [\"function_name\", \"nested_function\"],\n      \"outputs\": \"Any console output, return values, or side effects\",\n      \"memory_state\": \x7b \n        \"heap\": \x7b \"object_id\": \"object_details\" \x7d,\n        \"stack\": [\"local_variables\"]\n      \x7d,\n      \"control_flow\": \"branch_taken or loop_condition or exception_handling\",\n      \"data_structures\": \x7b\n        \"list_name\": \x7b \"elements\": [1, 2, 3], \"index\": 0, \"length\": 3 \x7d,\n        \"dict_name\": \x7b \"keys\": [\"key1\"], \"values\": [\"value1\"], \"current_key\": \"key1\" \x7d\n      \x7d,\n      \"execution_context\": \"What part of the program is currently executing\",\n      \"next_action\": \"What will happen in the next step\"\n    \x7d\n  ]\n\x7d\n\nCRITICAL RULES:\n1. Track EVERY variable assignment, function call, conditional check, and loop iteration\n2. Show the EXACT values of variables at each step\n3. Include data type information for variables\n4. Track function calls and return values accurately\n5. Show control flow decisions (if/else branches, loop conditions)\n6. For data structures (lists, dicts, objects), show their current state\n7. Include memory management details when relevant\n8. Be precise about line numbers - each executable line should have a step\n9. Show the execution context (which function, loop iteration, etc.)\n10. Use only double quotes, no trailing commas, valid JSON syntax\n11. Make explanations educational and detailed for learning purposes\n\nSUMMARY REQUIREMENTS:\n- Write a comprehensive, educational summary (3-5 paragraphs)\n- Explain the code's purpose and main functionality clearly\n- Break down each function and explain its specific role\n- Describe the algorithm logic and approach used\n- Explain data flow and variable usage patterns\n- Detail expected outputs and behavior\n- Highlight key programming concepts demonstrated\n- Include complexity analysis (time/space) where applicable\n- Provide educational insights about code structure and design patterns\n- Make it suitable for learning and understanding the code thoroughly\n"

/-- Model of `build_prompts` (analyzer.py lines 28-110): a pure function of
the language tag and code text returning the system instruction and the user
instruction, whose code block embeds the code text verbatim between the
`<CODE>` delimiters. -/
def build_prompts (language code_text : List Char) : List Char × List Char :=
  (traceSystemPrompt,
   st "\nLanguage: " ++ language ++ st "\nCode:\n" ++
     (st "<CODE>\n" ++ code_text ++ st "\n</CODE>") ++ tracePromptAfterCode language)

/-- The consecutive fallback indices `i, i+1, ...` (length `n`), as the
normalization loop produces them for index-less steps. -/
def stepIndices (i : Int) : Nat → List (Option Json)
  | 0 => []
  | m + 1 => some (Json.num i) :: stepIndices (i + 1) m

/-- An input that cannot extend a digit run: empty or headed by a non-digit. -/
def numStop : List Char → Bool
  | [] => true
  | c :: _ => !c.isDigit

/-- A key bound by no pair of the association list looks up to nothing. -/
lemma dictGet_none_of_keys (l : List (List Char × Json)) (k : List Char)
    (h : ∀ p ∈ l, ¬ p.1 = k) : dictGet l k = none := by
  induction l with
  | nil => rfl
  | cons p rest ih =>
    have hrest := ih (fun q hq => h q (List.mem_cons_of_mem _ hq))
    have hp := h p (List.mem_cons_self _ _)
    simp [dictGet, hrest, hp]

/-- Claim C9: every successfully normalized step is an object holding exactly
the twelve recognized keys, in order, whatever keys the model supplied. -/
theorem C9_normalized_step_keys :
    ∀ (i : Int) (stepJ ns : Json), normalizeStep i stepJ = some ns →
      ∃ fields, ns = Json.obj fields ∧ fields.map Prod.fst = recognizedStepKeys := by
  intro i stepJ ns h
  cases stepJ with
  | obj kvs =>
    simp only [normalizeStep, Option.some.injEq] at h
    exact ⟨_, h.symm, rfl⟩
  | null => exact absurd h (by simp [normalizeStep])
  | bool b => exact absurd h (by simp [normalizeStep])
  | num n => exact absurd h (by simp [normalizeStep])
  | str s => exact absurd h (by simp [normalizeStep])
  | arr xs => exact absurd h (by simp [normalizeStep])

/-- Witness for C9 at the empty step object. -/
theorem C9_normalized_step_keys_witness :
    ∃ fields,
      Json.obj
        [(st "step", Json.num 1), (st "line", Json.null), (st "operation", Json.str []),
         (st "explanation", Json.str []), (st "variables", Json.obj []),
         (st "call_stack", Json.arr []), (st "outputs", Json.str []),
         (st "memory_state", Json.obj []), (st "control_flow", Json.str []),
         (st "data_structures", Json.obj []), (st "execution_context", Json.str []),
         (st "next_action", Json.str [])] = Json.obj fields
      ∧ fields.map Prod.fst = recognizedStepKeys :=
  C9_normalized_step_keys 1 (Json.obj []) _ rfl

/-- Claim C7: a step object with unrecognized keys still normalizes, the
unknown keys are dropped, and every recognized key present keeps its value. -/
theorem C7_extra_key_tolerance :
    ∀ (i : Int) (kvs : List (List Char × Json)),
      (∃ k, k ∈ kvs.map Prod.fst ∧ k ∉ recognizedStepKeys) →
      ∃ ns, normalizeStep i (Json.obj kvs) = some (Json.obj ns)
        ∧ ns.map Prod.fst = recognizedStepKeys
        ∧ (∀ k v, k ∈ recognizedStepKeys → dictGet kvs k = some v → dictGet ns k = some v)
        ∧ (∀ k, k ∉ recognizedStepKeys → dictGet ns k = none) := by
  intro i kvs _
  refine ⟨_, rfl, rfl, ?_, ?_⟩
  · intro k v hk hv
    simp only [recognizedStepKeys, List.mem_cons, List.not_mem_nil, or_false] at hk
    rcases hk with rfl | rfl | rfl | rfl | rfl | rfl | rfl | rfl | rfl | rfl | rfl | rfl <;>
      (rw [hv]; rfl)
  · intro k hk
    apply dictGet_none_of_keys
    intro p hp he
    exact hk (he ▸ List.mem_map_of_mem Prod.fst hp)

/-- Witness for C7: one unrecognized key, one recognized key present. -/
theorem C7_extra_key_tolerance_witness :
    ∃ ns, normalizeStep 1 (Json.obj [(st "zzz", Json.null), (st "line", Json.num 7)])
        = some (Json.obj ns)
      ∧ ns.map Prod.fst = recognizedStepKeys
      ∧ (∀ k v, k ∈ recognizedStepKeys →
          dictGet [(st "zzz", Json.null), (st "line", Json.num 7)] k = some v →
          dictGet ns k = some v)
      ∧ (∀ k, k ∉ recognizedStepKeys → dictGet ns k = none) :=
  C7_extra_key_tolerance 1 [(st "zzz", Json.null), (st "line", Json.num 7)]
    ⟨st "zzz", by decide, by decide⟩

/-- Claim C2 fails as stated: a step whose `step` field holds a non-numeric
value keeps that value verbatim instead of being replaced by its 1-based
position. -/
theorem C2_counterexample :
    (normalizeStep 1 (Json.obj [(st "step", Json.str (st "x"))])).bind
        (fun n => jfield n (st "step")) = some (Json.str (st "x"))
      ∧ Json.str (st "x") ≠ Json.num 1 :=
  ⟨rfl, fun h => Json.noConfusion h⟩

/-- The backfill loop with an arbitrary start index: when every element lacks
the `step` key, the normalized indices are consecutive from the start. -/
lemma normalizeStepsFrom_backfill (steps : List Json) :
    ∀ i : Int, (∀ s ∈ steps, stepKeyAbsent s = true) →
      (normalizeStepsFrom i steps).map (fun l => l.map (fun n => jfield n (st "step")))
        = some (stepIndices i steps.length) := by
  induction steps with
  | nil => intro i _; rfl
  | cons s rest ih =>
    intro i h
    have hs := h s (List.mem_cons_self _ _)
    cases s with
    | obj kvs =>
      simp only [stepKeyAbsent, Option.isNone_iff_eq_none] at hs
      have ihr := ih (i + 1) (fun x hx => h x (List.mem_cons_of_mem _ hx))
      obtain ⟨l, hl, hgl⟩ := Option.map_eq_some'.mp ihr
      have hstep : normalizeStepsFrom i (Json.obj kvs :: rest)
          = some ((Json.obj
            [(st "step", (dictGet kvs (st "step")).getD (Json.num i)),
             (st "line", (dictGet kvs (st "line")).getD Json.null),
             (st "operation", (dictGet kvs (st "operation")).getD (Json.str [])),
             (st "explanation", (dictGet kvs (st "explanation")).getD (Json.str [])),
             (st "variables", (dictGet kvs (st "variables")).getD (Json.obj [])),
             (st "call_stack", (dictGet kvs (st "call_stack")).getD (Json.arr [])),
             (st "outputs", (dictGet kvs (st "outputs")).getD (Json.str [])),
             (st "memory_state", (dictGet kvs (st "memory_state")).getD (Json.obj [])),
             (st "control_flow", (dictGet kvs (st "control_flow")).getD (Json.str [])),
             (st "data_structures", (dictGet kvs (st "data_structures")).getD (Json.obj [])),
             (st "execution_context", (dictGet kvs (st "execution_context")).getD (Json.str [])),
             (st "next_action", (dictGet kvs (st "next_action")).getD (Json.str []))]) :: l) := by
        simp only [normalizeStepsFrom, normalizeStep, hl]
      rw [hstep]
      simp only [Option.map_some', List.map_cons, List.length_cons, stepIndices,
        Option.some.injEq, List.cons.injEq]
      constructor
      · show some ((dictGet kvs (st "step")).getD (Json.num i)) = _
        rw [hs]; rfl
      · exact hgl
    | null => simp [stepKeyAbsent] at hs
    | bool b => simp [stepKeyAbsent] at hs
    | num n => simp [stepKeyAbsent] at hs
    | str s2 => simp [stepKeyAbsent] at hs
    | arr xs => simp [stepKeyAbsent] at hs

/-- Claim C2, amended: a step that omits the `step` key gets its 1-based
position; a step that supplies any value under `step` — numeric or not —
keeps it verbatim. -/
theorem C2_amended_index_backfill :
    (∀ steps : List Json, (∀ s ∈ steps, stepKeyAbsent s = true) →
      (normalizeStepsFrom 1 steps).map (fun l => l.map (fun n => jfield n (st "step")))
        = some (stepIndices 1 steps.length))
    ∧ (∀ (i : Int) (kvs : List (List Char × Json)) (v : Json),
        dictGet kvs (st "step") = some v →
        (normalizeStep i (Json.obj kvs)).bind (fun n => jfield n (st "step")) = some v) := by
  constructor
  · intro steps h
    exact normalizeStepsFrom_backfill steps 1 h
  · intro i kvs v hv
    show some ((dictGet kvs (st "step")).getD (Json.num i)) = some v
    rw [hv]; rfl

/-- Witness for C2: two index-less steps get indices 1 and 2; a step carrying
the string value `"x"` keeps it. -/
theorem C2_amended_index_backfill_witness :
    (normalizeStepsFrom 1 [Json.obj [], Json.obj []]).map
        (fun l => l.map (fun n => jfield n (st "step")))
      = some (stepIndices 1 2)
    ∧ (normalizeStep 5 (Json.obj [(st "step", Json.str (st "x"))])).bind
        (fun n => jfield n (st "step")) = some (Json.str (st "x")) :=
  ⟨C2_amended_index_backfill.1 [Json.obj [], Json.obj []] (by decide),
   C2_amended_index_backfill.2 5 [(st "step", Json.str (st "x"))] (Json.str (st "x")) rfl⟩

/-- Claim C5 fails as stated: the absent `line` field of a step is filled
with JSON null — an unset/undefined marker — not with an empty string,
mapping or sequence. -/
theorem C5_counterexample :
    (normalizeStep 1 (Json.obj [])).bind (fun n => jfield n (st "line")) = some Json.null
    ∧ Json.null ≠ Json.str [] ∧ Json.null ≠ Json.obj [] ∧ Json.null ≠ Json.arr [] :=
  ⟨rfl, fun h => Json.noConfusion h, fun h => Json.noConfusion h, fun h => Json.noConfusion h⟩

/-- Claim C5, amended: the actual default table.  Textual, mapping and
sequence fields do default to empty values, but `step` defaults to the
1-based position, `line` to null, an issue's `type` to `"logic"`, its `title`
to `"Potential issue"`, a function's `name` to `"main"` and its complexities
to `"O(1)"`. -/
theorem C5_amended_default_table :
    (∀ i : Int, normalizeStep i (Json.obj []) = some (Json.obj
      [(st "step", Json.num i), (st "line", Json.null), (st "operation", Json.str []),
       (st "explanation", Json.str []), (st "variables", Json.obj []),
       (st "call_stack", Json.arr []), (st "outputs", Json.str []),
       (st "memory_state", Json.obj []), (st "control_flow", Json.str []),
       (st "data_structures", Json.obj []), (st "execution_context", Json.str []),
       (st "next_action", Json.str [])]))
    ∧ normalizeIssue (Json.obj []) = some (Json.obj
      [(st "type", Json.str (st "logic")), (st "line", Json.num 0),
       (st "title", Json.str (st "Potential issue")), (st "explanation", Json.str []),
       (st "suggestion", Json.str [])])
    ∧ normalizeFunction (Json.obj []) = some (Json.obj
      [(st "name", Json.str (st "main")), (st "time_complexity", Json.str (st "O(1)")),
       (st "space_complexity", Json.str (st "O(1)")), (st "notes", Json.str []),
       (st "loops", Json.arr []), (st "recursions", Json.arr [])]) :=
  ⟨fun _ => rfl, rfl, rfl⟩

/-- Claim C6 fails as stated: a negative model-supplied `line` survives into
the normalized issue. -/
theorem C6_counterexample :
    (normalizeIssue (Json.obj [(st "line", Json.num (-3))])).bind
        (fun n => jfield n (st "line")) = some (Json.num (-3))
    ∧ ¬ (0 : Int) ≤ -3 :=
  ⟨rfl, by norm_num⟩

/-- Claim C6, amended: the normalized `line` is always an integer, equal to 0
when the field is absent, but it is whatever integer `int()` yields on the
supplied value — possibly negative. -/
theorem C6_amended_line_integer :
    ∀ (kvs : List (List Char × Json)) (res : Json),
      normalizeIssue (Json.obj kvs) = some res →
        (∃ n : Int, jfield res (st "line") = some (Json.num n))
        ∧ (dictGet kvs (st "line") = none → jfield res (st "line") = some (Json.num 0)) := by
  intro kvs res h
  simp only [normalizeIssue] at h
  cases hp : pyInt (orZero ((dictGet kvs (st "line")).getD (Json.num 0))) with
  | none => rw [hp] at h; exact absurd h (by simp)
  | some n =>
    rw [hp] at h
    simp only [Option.some.injEq] at h
    subst h
    constructor
    · exact ⟨n, rfl⟩
    · intro habs
      rw [habs] at hp
      have : n = 0 := by
        have hval : pyInt (orZero ((none : Option Json).getD (Json.num 0))) = some 0 := rfl
        rw [hval] at hp
        exact (Option.some.injEq _ _ ▸ hp).symm
      subst this
      rfl

/-- Witness for C6 at an issue with no `line` key. -/
theorem C6_amended_line_integer_witness :
    (∃ n : Int,
        jfield (Json.obj
          [(st "type", Json.str (st "logic")), (st "line", Json.num 0),
           (st "title", Json.str (st "Potential issue")), (st "explanation", Json.str []),
           (st "suggestion", Json.str [])]) (st "line") = some (Json.num n))
    ∧ (dictGet ([] : List (List Char × Json)) (st "line") = none →
        jfield (Json.obj
          [(st "type", Json.str (st "logic")), (st "line", Json.num 0),
           (st "title", Json.str (st "Potential issue")), (st "explanation", Json.str []),
           (st "suggestion", Json.str [])]) (st "line") = some (Json.num 0)) :=
  C6_amended_line_integer [] _ rfl

/-- Claim C3 fails as stated: a field-level anomaly — a non-numeric `line`
value on an issue — makes the post-parse shaping raise (`int("abc")`) instead
of substituting a default. -/
theorem C3_counterexample :
    shapeErrors (Json.obj
      [(st "issues", Json.arr [Json.obj [(st "line", Json.str (st "abc"))]])]) = none := rfl

/-- Claim C3, amended: the shaping of steps and functions never raises on any
dict element, whatever its fields hold; the shaping of an issue never raises
except through the `int()` conversion of its `line` field, which succeeds
exactly when that conversion does. -/
theorem C3_amended_field_defaulting :
    (∀ (i : Int) (kvs : List (List Char × Json)),
      (normalizeStep i (Json.obj kvs)).isSome = true)
    ∧ (∀ kvs : List (List Char × Json), (normalizeFunction (Json.obj kvs)).isSome = true)
    ∧ (∀ (kvs : List (List Char × Json)) (n : Int),
        pyInt (orZero ((dictGet kvs (st "line")).getD (Json.num 0))) = some n →
        (normalizeIssue (Json.obj kvs)).isSome = true)
    ∧ (∀ kvs : List (List Char × Json),
        (normalizeIssue (Json.obj kvs)).isSome = true ∨
        pyInt (orZero ((dictGet kvs (st "line")).getD (Json.num 0))) = none) := by
  refine ⟨fun i kvs => rfl, fun kvs => rfl, ?_, ?_⟩
  · intro kvs n h
    simp only [normalizeIssue, h, Option.isSome_some]
  · intro kvs
    cases hp : pyInt (orZero ((dictGet kvs (st "line")).getD (Json.num 0))) with
    | none => exact Or.inr rfl
    | some n => exact Or.inl (by simp only [normalizeIssue, hp, Option.isSome_some])

/-- Witness for C3: a step and a function full of odd fields normalize, and
an issue whose `line` is the string `"7"` converts. -/
theorem C3_amended_field_defaulting_witness :
    (normalizeStep 1 (Json.obj [(st "line", Json.arr [])])).isSome = true
    ∧ (normalizeFunction (Json.obj [(st "name", Json.num 9)])).isSome = true
    ∧ (normalizeIssue (Json.obj [(st "line", Json.str (st "7"))])).isSome = true :=
  ⟨C3_amended_field_defaulting.1 1 [(st "line", Json.arr [])],
   C3_amended_field_defaulting.2.1 [(st "name", Json.num 9)],
   C3_amended_field_defaulting.2.2.1 [(st "line", Json.str (st "7"))] 7 rfl⟩

/-- Claim C4: with a falsy credential, each of the three analysis entry
points fails fast with the distinct authentication error, performs zero
network calls, and its result is independent of what the service would have
replied — so neither the network call nor the normalizer ever runs. -/
theorem C4_auth_short_circuit :
    ∀ (apiKey : Option (List Char)) (reply reply2 language : List Char),
      pyFalsyKey apiKey = true →
        analyze_code_with_llm apiKey reply language
            = (Except.error AnalyzeError.authenticationMissing, 0)
        ∧ analyze_errors_with_llm apiKey reply
            = (Except.error AnalyzeError.authenticationMissing, 0)
        ∧ analyze_complexity_with_llm apiKey reply
            = (Except.error AnalyzeError.authenticationMissing, 0)
        ∧ analyze_code_with_llm apiKey reply language
            = analyze_code_with_llm apiKey reply2 language := by
  intro apiKey reply reply2 language h
  refine ⟨?_, ?_, ?_, ?_⟩ <;>
    simp [analyze_code_with_llm, analyze_errors_with_llm, analyze_complexity_with_llm, h]

/-- Witness for C4 with no credential at all. -/
theorem C4_auth_short_circuit_witness :
    analyze_code_with_llm none (st "ignored") (st "python")
        = (Except.error AnalyzeError.authenticationMissing, 0)
    ∧ analyze_errors_with_llm none (st "ignored")
        = (Except.error AnalyzeError.authenticationMissing, 0)
    ∧ analyze_complexity_with_llm none (st "ignored")
        = (Except.error AnalyzeError.authenticationMissing, 0)
    ∧ analyze_code_with_llm none (st "ignored") (st "python")
        = analyze_code_with_llm none (st "other") (st "python") :=
  C4_auth_short_circuit none (st "ignored") (st "other") (st "python") rfl

/-- Claim C10: `safe_json_loads` hands back a non-mapping top-level value
(here the array parsed from `"[1, 2]"`) untouched, and the subsequent shaping
step then fails instead of defaulting. -/
theorem C10_non_object_top_level :
    json_loads (st "[1, 2]") = some (Json.arr [Json.num 1, Json.num 2])
    ∧ safe_json_loads (st "[1, 2]") = some (Json.arr [Json.num 1, Json.num 2])
    ∧ (∀ language : List Char,
        shapeTrace language (Json.arr [Json.num 1, Json.num 2]) = none)
    ∧ shapeErrors (Json.arr [Json.num 1, Json.num 2]) = none
    ∧ shapeComplexity (Json.arr [Json.num 1, Json.num 2]) = none :=
  ⟨rfl, rfl, fun _ => rfl, rfl, rfl⟩

/-- Claim C8: `build_prompts` is a pure Lean function — identical output on
identical input — and its user instruction embeds the code text verbatim
between the `<CODE>` and `</CODE>` delimiters. -/
theorem C8_build_prompts_pure :
    ∀ language code_text : List Char,
      build_prompts language code_text = build_prompts language code_text
      ∧ ∃ p q : List Char,
          (build_prompts language code_text).2
            = p ++ (st "<CODE>\n" ++ code_text ++ st "\n</CODE>") ++ q := by
  intro language code_text
  refine ⟨rfl, st "\nLanguage: " ++ language ++ st "\nCode:\n",
    tracePromptAfterCode language, ?_⟩
  simp [build_prompts, List.append_assoc]

/-- The function `digitChar` produces a digit character carrying exactly its argument. -/
lemma digitChar_spec (k : Nat) (h : k < 10) :
    (digitChar k).isDigit = true ∧ (digitChar k).toNat - 48 = k ∧ isWs (digitChar k) = false := by
  interval_cases k <;> refine ⟨by decide, by decide, by decide⟩

/-- The accumulator of `natToDigitsAux` only ever rides along on the right,
and any fuel above the argument computes the same digits. -/
lemma natToDigitsAux_acc : ∀ (n : Nat) (fuel : Nat) (acc : List Char), n < fuel →
    natToDigitsAux fuel n acc = natToDigits n ++ acc := by
  intro n
  induction n using Nat.strong_induction_on with
  | _ n ih =>
    intro fuel acc hfuel
    cases fuel with
    | zero => omega
    | succ f =>
      by_cases h10 : n < 10
      · simp [natToDigitsAux, natToDigits, h10]
      · have hdiv : n / 10 < n := Nat.div_lt_self (by omega) (by omega)
        have hrhs : natToDigits n = natToDigits (n / 10) ++ [digitChar (n % 10)] := by
          show natToDigitsAux (n + 1) n [] = _
          simp only [natToDigitsAux, if_neg h10]
          exact ih (n / 10) hdiv n [digitChar (n % 10)] (by omega)
        simp only [natToDigitsAux, if_neg h10]
        rw [ih (n / 10) hdiv f (digitChar (n % 10) :: acc) (by omega), hrhs]
        simp

/-- One unfolding of `natToDigits` in last-digit form. -/
lemma natToDigits_unfold (n : Nat) :
    natToDigits n = (if n < 10 then [] else natToDigits (n / 10)) ++ [digitChar (n % 10)] := by
  by_cases h10 : n < 10
  · simp only [if_pos h10, List.nil_append]
    show natToDigitsAux (n + 1) n [] = _
    simp only [natToDigitsAux, if_pos h10]
    rw [Nat.mod_eq_of_lt h10]
  · simp only [if_neg h10]
    show natToDigitsAux (n + 1) n [] = _
    simp only [natToDigitsAux, if_neg h10]
    exact natToDigitsAux_acc (n / 10) n [digitChar (n % 10)]
      (by omega)

lemma natToDigits_ne_nil (n : Nat) : natToDigits n ≠ [] := by
  rw [natToDigits_unfold]; simp

lemma natToDigits_all_digits (n : Nat) : ∀ c ∈ natToDigits n, c.isDigit = true := by
  induction n using Nat.strong_induction_on with
  | _ n ih =>
    rw [natToDigits_unfold]
    intro c hc
    rw [List.mem_append] at hc
    cases hc with
    | inr h =>
      rw [List.mem_singleton] at h
      subst h
      exact (digitChar_spec _ (Nat.mod_lt _ (by omega))).1
    | inl h =>
      by_cases h10 : n < 10
      · simp [h10] at h
      · rw [if_neg h10] at h
        exact ih (n / 10) (Nat.div_lt_self (by omega) (by omega)) c h

/-- Folding the digit-accumulation step over a rendered digit string recovers
the number, shifted under any prior accumulator. -/
lemma foldl_digits_shift (ds : List Char) :
    ∀ a : Nat, ds.foldl (fun acc c => acc * 10 + (c.toNat - 48)) a
      = a * 10 ^ ds.length + ds.foldl (fun acc c => acc * 10 + (c.toNat - 48)) 0 := by
  induction ds with
  | nil => intro a; simp
  | cons c t ih =>
    intro a
    simp only [List.foldl_cons, List.length_cons]
    rw [ih (a * 10 + (c.toNat - 48)), ih (0 * 10 + (c.toNat - 48))]
    ring

lemma foldl_natToDigits (n : Nat) :
    (natToDigits n).foldl (fun acc c => acc * 10 + (c.toNat - 48)) 0 = n := by
  induction n using Nat.strong_induction_on with
  | _ n ih =>
    rw [natToDigits_unfold, List.foldl_append]
    by_cases h10 : n < 10
    · simp only [if_pos h10, List.foldl_nil, List.foldl_cons]
      rw [(digitChar_spec _ (Nat.mod_lt _ (by omega))).2.1]
      omega
    · simp only [if_neg h10, List.foldl_cons, List.foldl_nil]
      rw [ih (n / 10) (Nat.div_lt_self (by omega) (by omega))]
      rw [(digitChar_spec _ (Nat.mod_lt _ (by omega))).2.1]
      omega

/-- The run parser `parseDigits` stops immediately at a non-digit boundary. -/
lemma parseDigits_stop (a : Nat) (cs : List Char) (h : numStop cs = true) :
    parseDigits a cs = (a, cs) := by
  cases cs with
  | nil => rfl
  | cons c t =>
    simp only [numStop, Bool.not_eq_true'] at h
    simp [parseDigits, h]

/-- The run parser `parseDigits` consumes exactly a digit run. -/
lemma parseDigits_run (ds : List Char) :
    ∀ (a : Nat) (rest : List Char), (∀ c ∈ ds, c.isDigit = true) →
      parseDigits a (ds ++ rest)
        = parseDigits (ds.foldl (fun acc c => acc * 10 + (c.toNat - 48)) a) rest := by
  induction ds with
  | nil => intro a rest _; rfl
  | cons c t ih =>
    intro a rest h
    have hc : c.isDigit = true := h c (List.mem_cons_self _ _)
    simp only [List.cons_append, parseDigits, if_pos hc, List.foldl_cons]
    exact ih _ rest (fun x hx => h x (List.mem_cons_of_mem _ hx))

/-- Parsing the rendered digits of `n` before a non-digit boundary yields `n`. -/
lemma parseDigits_natToDigits (n : Nat) (rest : List Char) (h : numStop rest = true) :
    parseDigits 0 (natToDigits n ++ rest) = (n, rest) := by
  rw [parseDigits_run _ 0 rest (natToDigits_all_digits n), foldl_natToDigits,
    parseDigits_stop _ _ h]

/-- A digit run is nonempty and starts with a digit. -/
lemma natToDigits_cons (n : Nat) :
    ∃ c t, natToDigits n = c :: t ∧ c.isDigit = true := by
  match h : natToDigits n with
  | [] => exact absurd h (natToDigits_ne_nil n)
  | c :: t =>
    exact ⟨c, t, rfl, natToDigits_all_digits n c (h ▸ List.mem_cons_self _ _)⟩

/-- A digit character is none of the characters the value parser dispatches
on, and no whitespace. -/
lemma digit_head_facts (c : Char) (h : c.isDigit = true) :
    isWs c = false ∧ ¬ c = 'n' ∧ ¬ c = 't' ∧ ¬ c = 'f' ∧ ¬ c = quoteChar
      ∧ ¬ c = '[' ∧ ¬ c = lbraceChar ∧ ¬ c = ']' ∧ ¬ c = rbraceChar ∧ ¬ c = ','
      ∧ ¬ c = '-' ∧ ¬ c = backquoteChar := by
  refine ⟨?_, ?_, ?_, ?_, ?_, ?_, ?_, ?_, ?_, ?_, ?_, ?_⟩
  · simp only [isWs, Bool.or_eq_false_iff, beq_eq_false_iff_ne]
    refine ⟨⟨⟨?_, ?_⟩, ?_⟩, ?_⟩ <;> (intro he; subst he; exact absurd h (by decide))
  all_goals (intro he; subst he; exact absurd h (by decide))

/-- The number parser `parseNum` inverts the canonical integer rendering at any non-digit
boundary. -/
lemma parseNum_serializeInt (n : Int) (rest : List Char) (h : numStop rest = true) :
    parseNum (serializeInt n ++ rest) = some (n, rest) := by
  by_cases hn : n < 0
  · have harg : serializeInt n ++ rest = '-' :: (natToDigits n.natAbs ++ rest) := by
      simp [serializeInt, hn]
    obtain ⟨c0, t0, h0, hc0⟩ := natToDigits_cons n.natAbs
    rw [harg]
    simp only [parseNum]
    rw [if_pos (by decide : (('-' : Char) == '-') = true)]
    rw [h0, List.cons_append]
    simp only [if_pos hc0]
    rw [← List.cons_append, ← h0, parseDigits_natToDigits n.natAbs rest h]
    simp only [Option.some.injEq, Prod.mk.injEq]
    exact ⟨by omega, trivial⟩
  · have harg : serializeInt n ++ rest = natToDigits n.toNat ++ rest := by
      simp [serializeInt, hn]
    obtain ⟨c0, t0, h0, hc0⟩ := natToDigits_cons n.toNat
    obtain ⟨_, _, _, _, _, _, _, _, _, _, hminus, _⟩ := digit_head_facts c0 hc0
    rw [harg, h0, List.cons_append]
    simp only [parseNum]
    rw [if_neg (by simpa using hminus), if_pos hc0]
    rw [← List.cons_append, ← h0, parseDigits_natToDigits n.toNat rest h]
    simp only [Option.some.injEq, Prod.mk.injEq]
    exact ⟨by omega, trivial⟩

/-- Whitespace skipping is the identity on input whose head is no whitespace. -/
lemma skipWs_cons (c : Char) (t : List Char) (h : isWs c = false) :
    skipWs (c :: t) = c :: t := by
  simp [skipWs, List.dropWhile_cons, h]

/-- One step of `parseStrBody` at a closing quote. -/
lemma parseStrBody_quote (rest : List Char) :
    parseStrBody (quoteChar :: rest) = some ([], rest) := by
  rw [parseStrBody.eq_def]; rfl

/-- One step of `parseStrBody` at a backslash escape. -/
lemma parseStrBody_backslash (e : Char) (rest : List Char) :
    parseStrBody (backslashChar :: e :: rest)
      = (match unescapeChar e, parseStrBody rest with
         | some u, some p => some (u :: p.1, p.2)
         | _, _ => none) := by
  rw [parseStrBody.eq_def]; rfl

/-- One step of `parseStrBody` at an ordinary character. -/
lemma parseStrBody_plain (c : Char) (rest : List Char)
    (h1 : ¬ c = quoteChar) (h2 : ¬ c = backslashChar) :
    parseStrBody (c :: rest)
      = (match parseStrBody rest with
         | some p => some (c :: p.1, p.2)
         | none => none) := by
  rw [parseStrBody.eq_def]
  show (if c = quoteChar then some ([], rest)
    else if c = backslashChar then
      match rest with
      | [] => none
      | e :: rest2 =>
        match unescapeChar e, parseStrBody rest2 with
        | some u, some p => some (u :: p.1, p.2)
        | _, _ => none
    else
      match parseStrBody rest with
      | some p => some (c :: p.1, p.2)
      | none => none) = _
  rw [if_neg h1, if_neg h2]

/-- The string-body parser inverts the escaping of a string body, consuming the
closing quote. -/
lemma parseStrBody_escape (s : List Char) :
    ∀ rest : List Char, parseStrBody (escapeStr s ++ quoteChar :: rest) = some (s, rest) := by
  induction s with
  | nil =>
    intro rest
    show parseStrBody (quoteChar :: rest) = some ([], rest)
    exact parseStrBody_quote rest
  | cons c t ih =>
    intro rest
    by_cases h1 : c = quoteChar
    · subst h1
      have harg : escapeStr (quoteChar :: t) ++ quoteChar :: rest
          = backslashChar :: quoteChar :: (escapeStr t ++ quoteChar :: rest) := by
        simp [escapeStr, escapeChar]
      rw [harg, parseStrBody_backslash, ih rest]
      rfl
    · by_cases h2 : c = backslashChar
      · subst h2
        have harg : escapeStr (backslashChar :: t) ++ quoteChar :: rest
            = backslashChar :: backslashChar :: (escapeStr t ++ quoteChar :: rest) := by
          simp [escapeStr, escapeChar, (by decide : ¬ backslashChar = quoteChar)]
        rw [harg, parseStrBody_backslash, ih rest]
        rfl
      · by_cases h3 : c = nlChar
        · subst h3
          have harg : escapeStr (nlChar :: t) ++ quoteChar :: rest
              = backslashChar :: 'n' :: (escapeStr t ++ quoteChar :: rest) := by
            simp [escapeStr, escapeChar, (by decide : ¬ nlChar = quoteChar),
              (by decide : ¬ nlChar = backslashChar)]
          rw [harg, parseStrBody_backslash, ih rest]
          rfl
        · by_cases h4 : c = tabChar
          · subst h4
            have harg : escapeStr (tabChar :: t) ++ quoteChar :: rest
                = backslashChar :: 't' :: (escapeStr t ++ quoteChar :: rest) := by
              simp [escapeStr, escapeChar, (by decide : ¬ tabChar = quoteChar),
                (by decide : ¬ tabChar = backslashChar), (by decide : ¬ tabChar = nlChar)]
            rw [harg, parseStrBody_backslash, ih rest]
            rfl
          · by_cases h5 : c = crChar
            · subst h5
              have harg : escapeStr (crChar :: t) ++ quoteChar :: rest
                  = backslashChar :: 'r' :: (escapeStr t ++ quoteChar :: rest) := by
                simp [escapeStr, escapeChar, (by decide : ¬ crChar = quoteChar),
                  (by decide : ¬ crChar = backslashChar), (by decide : ¬ crChar = nlChar),
                  (by decide : ¬ crChar = tabChar)]
              rw [harg, parseStrBody_backslash, ih rest]
              rfl
            · have harg : escapeStr (c :: t) ++ quoteChar :: rest
                  = c :: (escapeStr t ++ quoteChar :: rest) := by
                simp [escapeStr, escapeChar, h1, h2, h3, h4, h5]
              rw [harg, parseStrBody_plain c _ h1 h2, ih rest]

/-- One step of `parseVal` on `null`. -/
lemma parseVal_null (len : Bool) (f : Nat) (rest : List Char) :
    parseVal len (f + 1) (st "null" ++ rest) = some (Json.null, rest) := rfl

/-- One step of `parseVal` on `true`. -/
lemma parseVal_true (len : Bool) (f : Nat) (rest : List Char) :
    parseVal len (f + 1) (st "true" ++ rest) = some (Json.bool true, rest) := rfl

/-- One step of `parseVal` on `false`. -/
lemma parseVal_false (len : Bool) (f : Nat) (rest : List Char) :
    parseVal len (f + 1) (st "false" ++ rest) = some (Json.bool false, rest) := rfl

/-- One step of `parseVal` at an opening quote. -/
lemma parseVal_quote (len : Bool) (f : Nat) (r : List Char) :
    parseVal len (f + 1) (quoteChar :: r)
      = (match parseStrBody r with
         | some p => some (Json.str p.1, p.2)
         | none => none) := rfl

/-- One step of `parseVal` at an opening bracket. -/
lemma parseVal_bracket (len : Bool) (f : Nat) (r : List Char) :
    parseVal len (f + 1) ('[' :: r)
      = (match skipWs r with
         | [] => none
         | c2 :: r2 =>
           if c2 = ']' then some (Json.arr [], r2)
           else
             match parseItems len f (c2 :: r2) with
             | some p => some (Json.arr p.1, p.2)
             | none => none) := rfl

/-- One step of `parseVal` at an opening brace. -/
lemma parseVal_brace (len : Bool) (f : Nat) (r : List Char) :
    parseVal len (f + 1) (lbraceChar :: r)
      = (match skipWs r with
         | [] => none
         | c2 :: r2 =>
           if c2 = rbraceChar then some (Json.obj [], r2)
           else
             match parseMembers len f (c2 :: r2) with
             | some p => some (Json.obj p.1, p.2)
             | none => none) := rfl

/-- One step of `parseVal` at a backtick: no value can start there. -/
lemma parseVal_backquote (len : Bool) (f : Nat) (r : List Char) :
    parseVal len (f + 1) (backquoteChar :: r) = none := rfl

/-- One definitional step of `parseVal` at successor fuel. -/
lemma parseVal_step (len : Bool) (f : Nat) (s : List Char) :
    parseVal len (f + 1) s
      = (match skipWs s with
         | [] => none
         | c :: r =>
           if c = 'n' then
             match r with
             | 'u' :: 'l' :: 'l' :: r2 => some (Json.null, r2)
             | _ => none
           else if c = 't' then
             match r with
             | 'r' :: 'u' :: 'e' :: r2 => some (Json.bool true, r2)
             | _ => none
           else if c = 'f' then
             match r with
             | 'a' :: 'l' :: 's' :: 'e' :: r2 => some (Json.bool false, r2)
             | _ => none
           else if c = quoteChar then
             match parseStrBody r with
             | some p => some (Json.str p.1, p.2)
             | none => none
           else if c = '[' then
             match skipWs r with
             | [] => none
             | c2 :: r2 =>
               if c2 = ']' then some (Json.arr [], r2)
               else
                 match parseItems len f (c2 :: r2) with
                 | some p => some (Json.arr p.1, p.2)
                 | none => none
           else if c = lbraceChar then
             match skipWs r with
             | [] => none
             | c2 :: r2 =>
               if c2 = rbraceChar then some (Json.obj [], r2)
               else
                 match parseMembers len f (c2 :: r2) with
                 | some p => some (Json.obj p.1, p.2)
                 | none => none
           else if (c == '-') || c.isDigit then
             match parseNum (c :: r) with
             | some p => some (Json.num p.1, p.2)
             | none => none
           else none) := rfl

/-- One step of `parseVal` at a sign or digit: dispatch to `parseNum`. -/
lemma parseVal_number (len : Bool) (f : Nat) (c : Char) (t : List Char)
    (hws : isWs c = false) (hn : ¬ c = 'n') (ht : ¬ c = 't') (hf : ¬ c = 'f')
    (hq : ¬ c = quoteChar) (hk : ¬ c = '[') (hb : ¬ c = lbraceChar)
    (hg : ((c == '-') || c.isDigit) = true) :
    parseVal len (f + 1) (c :: t)
      = (match parseNum (c :: t) with
         | some p => some (Json.num p.1, p.2)
         | none => none) := by
  rw [parseVal_step, skipWs_cons c t hws]
  show (if c = 'n' then
      match t with
      | 'u' :: 'l' :: 'l' :: r2 => some (Json.null, r2)
      | _ => none
    else if c = 't' then
      match t with
      | 'r' :: 'u' :: 'e' :: r2 => some (Json.bool true, r2)
      | _ => none
    else if c = 'f' then
      match t with
      | 'a' :: 'l' :: 's' :: 'e' :: r2 => some (Json.bool false, r2)
      | _ => none
    else if c = quoteChar then
      match parseStrBody t with
      | some p => some (Json.str p.1, p.2)
      | none => none
    else if c = '[' then
      match skipWs t with
      | [] => none
      | c2 :: r2 =>
        if c2 = ']' then some (Json.arr [], r2)
        else
          match parseItems len f (c2 :: r2) with
          | some p => some (Json.arr p.1, p.2)
          | none => none
    else if c = lbraceChar then
      match skipWs t with
      | [] => none
      | c2 :: r2 =>
        if c2 = rbraceChar then some (Json.obj [], r2)
        else
          match parseMembers len f (c2 :: r2) with
          | some p => some (Json.obj p.1, p.2)
          | none => none
    else if (c == '-') || c.isDigit then
      match parseNum (c :: t) with
      | some p => some (Json.num p.1, p.2)
      | none => none
    else none) = _
  rw [if_neg hn, if_neg ht, if_neg hf, if_neg hq, if_neg hk, if_neg hb, if_pos hg]

/-- Every canonically rendered value starts with a non-whitespace character
that closes neither an array nor an object. -/
lemma serializeJson_head (v : Json) :
    ∃ c t, serializeJson v = c :: t ∧ isWs c = false ∧ ¬ c = ']' ∧ ¬ c = rbraceChar := by
  cases v with
  | num n =>
    by_cases hn : n < 0
    case pos =>
      refine ⟨'-', natToDigits n.natAbs, by simp [serializeJson, serializeInt, hn],
        by decide, by decide, by decide⟩
    case neg =>
      obtain ⟨c0, t0, h0, hc0⟩ := natToDigits_cons n.toNat
      obtain ⟨hws, -, -, -, -, -, -, hbr, hbc, -, -, -⟩ := digit_head_facts c0 hc0
      exact ⟨c0, t0, by simp [serializeJson, serializeInt, hn, h0], hws, hbr, hbc⟩
  | bool b => cases b <;> exact ⟨_, _, rfl, by decide, by decide, by decide⟩
  | null => exact ⟨_, _, rfl, by decide, by decide, by decide⟩
  | str s => exact ⟨_, _, rfl, by decide, by decide, by decide⟩
  | arr xs => exact ⟨_, _, rfl, by decide, by decide, by decide⟩
  | obj kvs => exact ⟨_, _, rfl, by decide, by decide, by decide⟩

/-- Whitespace skipping is the identity in front of a rendered value. -/
lemma skipWs_serializeJson (v : Json) (x : List Char) :
    skipWs (serializeJson v ++ x) = serializeJson v ++ x := by
  obtain ⟨c, t, hren, hws, _, _⟩ := serializeJson_head v
  rw [hren, List.cons_append, skipWs_cons _ _ hws]

/-- A rendered value parses back, at any fuel above its length, before any
remainder that cannot extend a number. -/
lemma parseVal_num_rt (n : Int) (len : Bool) (f : Nat) (rest : List Char)
    (hr : numStop rest = true) :
    parseVal len (f + 1) (serializeInt n ++ rest) = some (Json.num n, rest) := by
  by_cases hn : n < 0
  · have harg : serializeInt n ++ rest = '-' :: (natToDigits n.natAbs ++ rest) := by
      simp [serializeInt, hn]
    rw [harg, parseVal_number len f '-' _ (by decide) (by decide) (by decide) (by decide)
      (by decide) (by decide) (by decide) (by decide), ← harg,
      parseNum_serializeInt n rest hr]
  · obtain ⟨c0, t0, h0, hc0⟩ := natToDigits_cons n.toNat
    obtain ⟨hws, hdn, hdt, hdf, hdq, hdk, hdb, _, _, _, _, _⟩ := digit_head_facts c0 hc0
    have harg : serializeInt n ++ rest = c0 :: (t0 ++ rest) := by
      simp [serializeInt, hn, h0]
    rw [harg, parseVal_number len f c0 _ hws hdn hdt hdf hdq hdk hdb
      (by simp [hc0]), ← harg, parseNum_serializeInt n rest hr]

/-- One definitional step of `parseItems` at successor fuel. -/
lemma parseItems_step (len : Bool) (f : Nat) (s : List Char) :
    parseItems len (f + 1) s
      = (match parseVal len f s with
         | none => none
         | some (v, r) =>
           match skipWs r with
           | [] => none
           | c :: r2 =>
             if c = ',' then
               match skipWs r2 with
               | [] => none
               | c2 :: r3 =>
                 if c2 = ']' then (if len then some ([v], r3) else none)
                 else
                   match parseItems len f (c2 :: r3) with
                   | some p => some (v :: p.1, p.2)
                   | none => none
             else if c = ']' then some ([v], r2)
             else none) := rfl

/-- The item parser when the first value is followed directly by the closing bracket. -/
lemma parseItems_rbracket (len : Bool) (f : Nat) (v : Json) (s T : List Char)
    (hv : parseVal len f s = some (v, ']' :: T)) :
    parseItems len (f + 1) s = some ([v], T) := by
  rw [parseItems_step, hv]; rfl

/-- The item parser when the first value is followed by a comma. -/
lemma parseItems_comma (len : Bool) (f : Nat) (v : Json) (s T : List Char)
    (hv : parseVal len f s = some (v, ',' :: T)) :
    parseItems len (f + 1) s
      = (match skipWs T with
         | [] => none
         | c2 :: r3 =>
           if c2 = ']' then (if len then some ([v], r3) else none)
           else
             match parseItems len f (c2 :: r3) with
             | some p => some (v :: p.1, p.2)
             | none => none) := by
  rw [parseItems_step, hv]; rfl

/-- One definitional step of `parseMembers` at a cons input. -/
lemma parseMembers_step_cons (len : Bool) (f : Nat) (c : Char) (r : List Char) :
    parseMembers len (f + 1) (c :: r)
      = (if c = quoteChar then
          match parseStrBody r with
          | none => none
          | some (k, r1) =>
            match skipWs r1 with
            | [] => none
            | c1 :: r2 =>
              if c1 = ':' then
                match parseVal len f r2 with
                | none => none
                | some (v, r3) =>
                  match skipWs r3 with
                  | [] => none
                  | c2 :: r4 =>
                    if c2 = ',' then
                      match skipWs r4 with
                      | [] => none
                      | c3 :: r5 =>
                        if c3 = rbraceChar then (if len then some ([(k, v)], r5) else none)
                        else
                          match parseMembers len f (c3 :: r5) with
                          | some p => some ((k, v) :: p.1, p.2)
                          | none => none
                    else if c2 = rbraceChar then some ([(k, v)], r4)
                    else none
              else none
        else none) := rfl

/-- The member parser after a rendered key and its colon: continue with the
value parser. -/
lemma parseMembers_key (len : Bool) (f : Nat) (k : List Char) (R : List Char) :
    parseMembers len (f + 1) (quoteChar :: (escapeStr k ++ quoteChar :: ':' :: R))
      = (match parseVal len f R with
         | none => none
         | some (v, r3) =>
           match skipWs r3 with
           | [] => none
           | c2 :: r4 =>
             if c2 = ',' then
               match skipWs r4 with
               | [] => none
               | c3 :: r5 =>
                 if c3 = rbraceChar then (if len then some ([(k, v)], r5) else none)
                 else
                   match parseMembers len f (c3 :: r5) with
                   | some p => some ((k, v) :: p.1, p.2)
                   | none => none
             else if c2 = rbraceChar then some ([(k, v)], r4)
             else none) := by
  rw [parseMembers_step_cons, if_pos rfl, parseStrBody_escape k (':' :: R)]; rfl

/-- The rendering of a nonempty item list starts like its first value. -/
lemma serializeItemsJ_cons_decomp (e : Json) (es : List Json) :
    ∃ t, serializeItemsJ (e :: es) = serializeJson e ++ t := by
  cases es with
  | nil => exact ⟨[], by simp [serializeItemsJ]⟩
  | cons x xs => exact ⟨',' :: serializeItemsJ (x :: xs), by simp [serializeItemsJ]⟩

/-- A rendered nonempty item list starts with a character that is neither
whitespace nor a closer. -/
lemma serializeItemsJ_head (e : Json) (es : List Json) :
    ∃ c t, serializeItemsJ (e :: es) = c :: t ∧ isWs c = false ∧ ¬ c = ']'
      ∧ ¬ c = rbraceChar := by
  obtain ⟨t0, hdec⟩ := serializeItemsJ_cons_decomp e es
  obtain ⟨c, t, hren, hws, hbr, hbc⟩ := serializeJson_head e
  exact ⟨c, t ++ t0, by rw [hdec, hren]; simp, hws, hbr, hbc⟩

/-- A rendered nonempty member list starts with the key's opening quote. -/
lemma serializeMembersJ_head (kv : List Char × Json) (ms : List (List Char × Json)) :
    ∃ t, serializeMembersJ (kv :: ms) = quoteChar :: t := by
  obtain ⟨k, v⟩ := kv
  cases ms with
  | nil =>
    exact ⟨escapeStr k ++ quoteChar :: ':' :: serializeJson v,
      by simp [serializeMembersJ, serializeStr]⟩
  | cons m ms2 =>
    exact ⟨escapeStr k ++ quoteChar :: ':' :: (serializeJson v ++ ',' :: serializeMembersJ (m :: ms2)),
      by simp [serializeMembersJ, serializeStr]⟩

/-- Continuation of `parseItems` after its first value, when the remaining
input is a rendered item list followed by material starting at `X`. -/
lemma items_cont (len : Bool) (f : Nat) (v : Json) (M X : List Char)
    (out : Option (List Json × List Char))
    (hq : ∃ c t, M = c :: t ∧ isWs c = false ∧ ¬ c = ']')
    (hkey : (match parseItems len f (M ++ X) with
             | some p => some (v :: p.1, p.2)
             | none => none) = out) :
    (match skipWs (M ++ X) with
     | [] => none
     | c2 :: r3 =>
       if c2 = ']' then (if len then some ([v], r3) else none)
       else
         match parseItems len f (c2 :: r3) with
         | some p => some (v :: p.1, p.2)
         | none => none) = out := by
  obtain ⟨c, t, rfl, hws, hbr⟩ := hq
  rw [List.cons_append, skipWs_cons _ _ hws]
  show (if c = ']' then (if len then some ([v], t ++ X) else none)
    else match parseItems len f (c :: (t ++ X)) with
         | some p => some (v :: p.1, p.2)
         | none => none) = out
  rw [if_neg hbr, ← List.cons_append]
  exact hkey

/-- Continuation of the value parser's array branch on a rendered nonempty
item list. -/
lemma val_arr_cont (len : Bool) (f : Nat) (M X : List Char)
    (out : Option (Json × List Char))
    (hq : ∃ c t, M = c :: t ∧ isWs c = false ∧ ¬ c = ']')
    (hkey : (match parseItems len f (M ++ X) with
             | some p => some (Json.arr p.1, p.2)
             | none => none) = out) :
    (match skipWs (M ++ X) with
     | [] => none
     | c2 :: r2 =>
       if c2 = ']' then some (Json.arr [], r2)
       else
         match parseItems len f (c2 :: r2) with
         | some p => some (Json.arr p.1, p.2)
         | none => none) = out := by
  obtain ⟨c, t, rfl, hws, hbr⟩ := hq
  rw [List.cons_append, skipWs_cons _ _ hws]
  show (if c = ']' then some (Json.arr [], t ++ X)
    else match parseItems len f (c :: (t ++ X)) with
         | some p => some (Json.arr p.1, p.2)
         | none => none) = out
  rw [if_neg hbr, ← List.cons_append]
  exact hkey

/-- Continuation of the value parser's object branch on a rendered nonempty
member list. -/
lemma val_obj_cont (len : Bool) (f : Nat) (M X : List Char)
    (out : Option (Json × List Char))
    (hq : ∃ c t, M = c :: t ∧ isWs c = false ∧ ¬ c = rbraceChar)
    (hkey : (match parseMembers len f (M ++ X) with
             | some p => some (Json.obj p.1, p.2)
             | none => none) = out) :
    (match skipWs (M ++ X) with
     | [] => none
     | c2 :: r2 =>
       if c2 = rbraceChar then some (Json.obj [], r2)
       else
         match parseMembers len f (c2 :: r2) with
         | some p => some (Json.obj p.1, p.2)
         | none => none) = out := by
  obtain ⟨c, t, rfl, hws, hbc⟩ := hq
  rw [List.cons_append, skipWs_cons _ _ hws]
  show (if c = rbraceChar then some (Json.obj [], t ++ X)
    else match parseMembers len f (c :: (t ++ X)) with
         | some p => some (Json.obj p.1, p.2)
         | none => none) = out
  rw [if_neg hbc, ← List.cons_append]
  exact hkey

/-- Continuation of `parseMembers` after a member and its comma, when the
remaining input is a rendered member list followed by material at `X`. -/
lemma members_cont (len : Bool) (f : Nat) (kv : List Char × Json) (M X : List Char)
    (out : Option (List (List Char × Json) × List Char))
    (hq : ∃ t, M = quoteChar :: t)
    (hkey : (match parseMembers len f (M ++ X) with
             | some p => some (kv :: p.1, p.2)
             | none => none) = out) :
    (match skipWs (M ++ X) with
     | [] => none
     | c3 :: r5 =>
       if c3 = rbraceChar then (if len then some ([kv], r5) else none)
       else
         match parseMembers len f (c3 :: r5) with
         | some p => some (kv :: p.1, p.2)
         | none => none) = out := by
  obtain ⟨t, rfl⟩ := hq
  rw [List.cons_append, skipWs_cons _ _ (by decide)]
  show (if quoteChar = rbraceChar then (if len then some ([kv], t ++ X) else none)
    else match parseMembers len f (quoteChar :: (t ++ X)) with
         | some p => some (kv :: p.1, p.2)
         | none => none) = out
  rw [if_neg (by decide), ← List.cons_append]
  exact hkey

mutual
/-- Round trip: a canonically rendered value parses back to itself, at any
fuel above its rendered length, before any remainder that cannot extend a
number, under either leniency. -/
theorem rt_val : ∀ (v : Json) (len : Bool) (fuel : Nat) (rest : List Char),
    (serializeJson v).length < fuel → numStop rest = true →
    parseVal len fuel (serializeJson v ++ rest) = some (v, rest)
  | Json.null, len, fuel, rest, hf, _ => by
    cases fuel with
    | zero => exact absurd hf (Nat.not_lt_zero _)
    | succ f => exact parseVal_null len f rest
  | Json.bool true, len, fuel, rest, hf, _ => by
    cases fuel with
    | zero => exact absurd hf (Nat.not_lt_zero _)
    | succ f => exact parseVal_true len f rest
  | Json.bool false, len, fuel, rest, hf, _ => by
    cases fuel with
    | zero => exact absurd hf (Nat.not_lt_zero _)
    | succ f => exact parseVal_false len f rest
  | Json.num n, len, fuel, rest, hf, hr => by
    cases fuel with
    | zero => exact absurd hf (Nat.not_lt_zero _)
    | succ f => exact parseVal_num_rt n len f rest hr
  | Json.str s, len, fuel, rest, hf, _ => by
    cases fuel with
    | zero => exact absurd hf (Nat.not_lt_zero _)
    | succ f =>
      have harg : serializeJson (Json.str s) ++ rest
          = quoteChar :: (escapeStr s ++ quoteChar :: rest) := by
        simp [serializeJson, serializeStr, List.cons_append, List.append_assoc]
      rw [harg, parseVal_quote, parseStrBody_escape s rest]
  | Json.arr [], len, fuel, rest, hf, _ => by
    cases fuel with
    | zero => exact absurd hf (Nat.not_lt_zero _)
    | succ f => rfl
  | Json.arr (e :: es), len, fuel, rest, hf, _ => by
    cases fuel with
    | zero => exact absurd hf (Nat.not_lt_zero _)
    | succ f =>
      have hfe : (serializeItemsJ (e :: es)).length + 1 < f := by
        simp only [serializeJson, List.length_cons, List.length_append,
          List.length_nil] at hf
        omega
      have harg : serializeJson (Json.arr (e :: es)) ++ rest
          = '[' :: (serializeItemsJ (e :: es) ++ ']' :: rest) := by
        simp [serializeJson, List.cons_append, List.append_assoc]
      rw [harg, parseVal_bracket]
      exact val_arr_cont len f (serializeItemsJ (e :: es)) (']' :: rest) _
        (by
          obtain ⟨c, t, hh, hws, hbr, _⟩ := serializeItemsJ_head e es
          exact ⟨c, t, hh, hws, hbr⟩)
        (by rw [rt_items e es len f rest hfe])
  | Json.obj [], len, fuel, rest, hf, _ => by
    cases fuel with
    | zero => exact absurd hf (Nat.not_lt_zero _)
    | succ f => rfl
  | Json.obj (m :: ms), len, fuel, rest, hf, _ => by
    cases fuel with
    | zero => exact absurd hf (Nat.not_lt_zero _)
    | succ f =>
      have hfm : (serializeMembersJ (m :: ms)).length + 1 < f := by
        simp only [serializeJson, List.length_cons, List.length_append,
          List.length_nil] at hf
        omega
      have harg : serializeJson (Json.obj (m :: ms)) ++ rest
          = lbraceChar :: (serializeMembersJ (m :: ms) ++ rbraceChar :: rest) := by
        simp [serializeJson, List.cons_append, List.append_assoc]
      rw [harg, parseVal_brace]
      exact val_obj_cont len f (serializeMembersJ (m :: ms)) (rbraceChar :: rest) _
        (by
          obtain ⟨t, hh⟩ := serializeMembersJ_head m ms
          exact ⟨quoteChar, t, hh, by decide, by decide⟩)
        (by rw [rt_members m ms len f rest hfm])
  termination_by v _ _ _ _ _ => sizeOf v

/-- Round trip for a nonempty item list followed by its closing bracket. -/
theorem rt_items : ∀ (e : Json) (es : List Json) (len : Bool) (fuel : Nat)
    (rest : List Char),
    (serializeItemsJ (e :: es)).length + 1 < fuel →
    parseItems len fuel (serializeItemsJ (e :: es) ++ ']' :: rest) = some (e :: es, rest)
  | e, [], len, fuel, rest, hf => by
    cases fuel with
    | zero => exact absurd hf (Nat.not_lt_zero _)
    | succ f =>
      have hfe : (serializeJson e).length < f := by
        simp only [serializeItemsJ] at hf
        omega
      have harg : serializeItemsJ [e] ++ ']' :: rest = serializeJson e ++ ']' :: rest := by
        simp [serializeItemsJ]
      rw [harg]
      exact parseItems_rbracket len f e _ rest (rt_val e len f (']' :: rest) hfe rfl)
  | e, x :: xs, len, fuel, rest, hf => by
    cases fuel with
    | zero => exact absurd hf (Nat.not_lt_zero _)
    | succ f =>
      simp only [serializeItemsJ, List.length_append, List.length_cons] at hf
      have hfe : (serializeJson e).length < f := by omega
      have hfx : (serializeItemsJ (x :: xs)).length + 1 < f := by omega
      have harg : serializeItemsJ (e :: x :: xs) ++ ']' :: rest
          = serializeJson e ++ ',' :: (serializeItemsJ (x :: xs) ++ ']' :: rest) := by
        simp [serializeItemsJ, List.cons_append, List.append_assoc]
      rw [harg, parseItems_comma len f e _ _
        (rt_val e len f (',' :: (serializeItemsJ (x :: xs) ++ ']' :: rest)) hfe rfl)]
      exact items_cont len f e (serializeItemsJ (x :: xs)) (']' :: rest) _
        (by
          obtain ⟨c, t, hh, hws, hbr, _⟩ := serializeItemsJ_head x xs
          exact ⟨c, t, hh, hws, hbr⟩)
        (by rw [rt_items x xs len f rest hfx])
  termination_by e es _ _ _ _ => sizeOf e + sizeOf es

/-- Round trip for a nonempty member list followed by its closing brace. -/
theorem rt_members : ∀ (kv : List Char × Json) (ms : List (List Char × Json))
    (len : Bool) (fuel : Nat) (rest : List Char),
    (serializeMembersJ (kv :: ms)).length + 1 < fuel →
    parseMembers len fuel (serializeMembersJ (kv :: ms) ++ rbraceChar :: rest)
      = some (kv :: ms, rest)
  | (k, v), [], len, fuel, rest, hf => by
    cases fuel with
    | zero => exact absurd hf (Nat.not_lt_zero _)
    | succ f =>
      have hfe : (serializeJson v).length < f := by
        simp only [serializeMembersJ, serializeStr, List.length_append,
          List.length_cons, List.length_nil] at hf
        omega
      have harg : serializeMembersJ [(k, v)] ++ rbraceChar :: rest
          = quoteChar :: (escapeStr k ++ quoteChar :: ':'
              :: (serializeJson v ++ rbraceChar :: rest)) := by
        simp [serializeMembersJ, serializeStr, List.cons_append, List.append_assoc]
      rw [harg, parseMembers_key, rt_val v len f (rbraceChar :: rest) hfe rfl]
      rfl
  | (k, v), (k2, v2) :: ms, len, fuel, rest, hf => by
    cases fuel with
    | zero => exact absurd hf (Nat.not_lt_zero _)
    | succ f =>
      simp only [serializeMembersJ, serializeStr, List.length_append,
        List.length_cons, List.length_nil] at hf
      have hfe : (serializeJson v).length < f := by omega
      have hfx : (serializeMembersJ ((k2, v2) :: ms)).length + 1 < f := by omega
      have harg : serializeMembersJ ((k, v) :: (k2, v2) :: ms) ++ rbraceChar :: rest
          = quoteChar :: (escapeStr k ++ quoteChar :: ':'
              :: (serializeJson v ++ ','
                :: (serializeMembersJ ((k2, v2) :: ms) ++ rbraceChar :: rest))) := by
        simp [serializeMembersJ, serializeStr, List.cons_append, List.append_assoc]
      rw [harg, parseMembers_key, rt_val v len f
        (',' :: (serializeMembersJ ((k2, v2) :: ms) ++ rbraceChar :: rest)) hfe rfl]
      exact members_cont len f (k, v) (serializeMembersJ ((k2, v2) :: ms))
        (rbraceChar :: rest) _ (serializeMembersJ_head (k2, v2) ms)
        (by rw [rt_members (k2, v2) ms len f rest hfx])
  termination_by kv ms _ _ _ _ => sizeOf kv + sizeOf ms

/-- Round trip for a nonempty member list followed by one trailing comma and
the closing brace: the lenient parser accepts it, the strict parser rejects. -/
theorem rt_members_tc : ∀ (kv : List Char × Json) (ms : List (List Char × Json))
    (len : Bool) (fuel : Nat) (rest : List Char),
    (serializeMembersJ (kv :: ms)).length + 1 < fuel →
    parseMembers len fuel (serializeMembersJ (kv :: ms) ++ ',' :: rbraceChar :: rest)
      = (if len then some (kv :: ms, rest) else none)
  | (k, v), [], len, fuel, rest, hf => by
    cases fuel with
    | zero => exact absurd hf (Nat.not_lt_zero _)
    | succ f =>
      have hfe : (serializeJson v).length < f := by
        simp only [serializeMembersJ, serializeStr, List.length_append,
          List.length_cons, List.length_nil] at hf
        omega
      have harg : serializeMembersJ [(k, v)] ++ ',' :: rbraceChar :: rest
          = quoteChar :: (escapeStr k ++ quoteChar :: ':'
              :: (serializeJson v ++ ',' :: rbraceChar :: rest)) := by
        simp [serializeMembersJ, serializeStr, List.cons_append, List.append_assoc]
      rw [harg, parseMembers_key, rt_val v len f (',' :: rbraceChar :: rest) hfe rfl]
      rfl
  | (k, v), (k2, v2) :: ms, len, fuel, rest, hf => by
    cases fuel with
    | zero => exact absurd hf (Nat.not_lt_zero _)
    | succ f =>
      simp only [serializeMembersJ, serializeStr, List.length_append,
        List.length_cons, List.length_nil] at hf
      have hfe : (serializeJson v).length < f := by omega
      have hfx : (serializeMembersJ ((k2, v2) :: ms)).length + 1 < f := by omega
      have harg : serializeMembersJ ((k, v) :: (k2, v2) :: ms) ++ ',' :: rbraceChar :: rest
          = quoteChar :: (escapeStr k ++ quoteChar :: ':'
              :: (serializeJson v ++ ','
                :: (serializeMembersJ ((k2, v2) :: ms) ++ ',' :: rbraceChar :: rest))) := by
        simp [serializeMembersJ, serializeStr, List.cons_append, List.append_assoc]
      rw [harg, parseMembers_key, rt_val v len f
        (',' :: (serializeMembersJ ((k2, v2) :: ms) ++ ',' :: rbraceChar :: rest)) hfe rfl]
      exact members_cont len f (k, v) (serializeMembersJ ((k2, v2) :: ms))
        (',' :: rbraceChar :: rest) _ (serializeMembersJ_head (k2, v2) ms)
        (by rw [rt_members_tc (k2, v2) ms len f rest hfx]; cases len <;> rfl)
  termination_by kv ms _ _ _ _ => sizeOf kv + sizeOf ms
end

/-- A canonically rendered document parses completely, under either leniency. -/
lemma pyJsonLoads_serialize (len : Bool) (v : Json) :
    pyJsonLoads len (serializeJson v) = some v := by
  have h := rt_val v len ((serializeJson v).length + 1) [] (by omega) rfl
  rw [List.append_nil] at h
  simp [pyJsonLoads, h, skipWs]

/-- Python stripping leaves a text alone when neither end is whitespace. -/
lemma pyStrip_id (w : List Char) (c1 c2 : Char) (t1 t2 : List Char)
    (h1 : w = c1 :: t1) (h2 : w.reverse = c2 :: t2)
    (hc1 : isPySpace c1 = false) (hc2 : isPySpace c2 = false) :
    pyStrip w = w := by
  have ha : w.dropWhile isPySpace = w := by
    rw [h1]; simp [List.dropWhile_cons, hc1]
  have hb : w.reverse.dropWhile isPySpace = w.reverse := by
    rw [h2]; simp [List.dropWhile_cons, hc2]
  rw [pyStrip, ha, hb, List.reverse_reverse]

/-- The fenced wrapping ends in a backtick. -/
lemma fenceWrap_last (s : List Char) :
    fenceWrap s = (st "```json" ++ nlChar :: (s ++ nlChar :: st "``")) ++ [backquoteChar] := by
  have h3 : st "```" = st "``" ++ [backquoteChar] := rfl
  rw [fenceWrap, h3]
  simp [List.cons_append, List.append_assoc]

/-- The fenced wrapping of a text strips back to the text. -/
lemma stripCodeFences_fenceWrap (s : List Char) :
    stripCodeFences (fenceWrap s) = s := by
  have hrev : (fenceWrap s).reverse
      = backquoteChar :: (st "```json" ++ nlChar :: (s ++ nlChar :: st "``")).reverse := by
    rw [fenceWrap_last]; simp
  have hstrip : pyStrip (fenceWrap s) = fenceWrap s :=
    pyStrip_id _ backquoteChar backquoteChar
      (st "``json" ++ nlChar :: (s ++ nlChar :: st "```"))
      ((st "```json" ++ nlChar :: (s ++ nlChar :: st "``")).reverse)
      rfl hrev (by decide) (by decide)
  have hopen : fenceOpenStrip (fenceWrap s) = s ++ nlChar :: st "```" := rfl
  have hclose : fenceCloseStrip (s ++ nlChar :: st "```") = s := by
    rw [fenceCloseStrip.eq_def]
    have hrev2 : (s ++ nlChar :: st "```").reverse
        = backquoteChar :: backquoteChar :: backquoteChar :: nlChar :: s.reverse := by
      rw [show st "```" = [backquoteChar, backquoteChar, backquoteChar] from rfl]
      simp [List.reverse_append]
    rw [hrev2]
    show s.reverse.reverse = s
    exact List.reverse_reverse s
  simp only [stripCodeFences]
  rw [hstrip, if_pos (show List.take 3 (fenceWrap s) = st "```" from rfl), hopen, hclose]

/-- The brace-span extractor returns a brace-delimited text whole. -/
lemma extractJsonBlock_brace (mid : List Char) :
    extractJsonBlock (lbraceChar :: (mid ++ [rbraceChar]))
      = some (lbraceChar :: (mid ++ [rbraceChar])) := by
  have hfind : pyFindIdx (lbraceChar :: (mid ++ [rbraceChar])) lbraceChar = some 0 := by
    simp [pyFindIdx, List.findIdx?_cons]
  have hrev : (lbraceChar :: (mid ++ [rbraceChar])).reverse
      = rbraceChar :: (mid.reverse ++ [lbraceChar]) := by
    simp
  have hrfind : pyRFindIdx (lbraceChar :: (mid ++ [rbraceChar])) rbraceChar
      = some (mid.length + 1) := by
    rw [pyRFindIdx, hrev]
    simp [List.findIdx?_cons]
  rw [extractJsonBlock, hfind, hrfind]
  show (if 0 < mid.length + 1 then
      some (List.take (mid.length + 1 + 1 - 0)
        (List.drop 0 (lbraceChar :: (mid ++ [rbraceChar]))))
    else none) = _
  rw [if_pos (by omega), List.drop_zero]
  have hlen : (lbraceChar :: (mid ++ [rbraceChar])).length ≤ mid.length + 1 + 1 - 0 := by
    simp
  rw [List.take_of_length_le hlen]

/-- A strict parse of a fenced text fails immediately at the backtick. -/
lemma json_loads_fenceWrap (s : List Char) : json_loads (fenceWrap s) = none := by
  have hw : fenceWrap s
      = backquoteChar :: (st "``json" ++ nlChar :: (s ++ nlChar :: st "```")) := rfl
  rw [json_loads, pyJsonLoads, hw, parseVal_backquote]

/-- A brace-delimited text passes `_strip_code_fences` unchanged. -/
lemma stripCodeFences_brace (mid : List Char) :
    stripCodeFences (lbraceChar :: (mid ++ [rbraceChar]))
      = lbraceChar :: (mid ++ [rbraceChar]) := by
  have hrev : (lbraceChar :: (mid ++ [rbraceChar])).reverse
      = rbraceChar :: (mid.reverse ++ [lbraceChar]) := by
    simp
  have hstrip : pyStrip (lbraceChar :: (mid ++ [rbraceChar]))
      = lbraceChar :: (mid ++ [rbraceChar]) :=
    pyStrip_id _ lbraceChar rbraceChar _ _ rfl hrev (by decide) (by decide)
  have hne : ¬ ((lbraceChar :: (mid ++ [rbraceChar])).take 3 = st "```") := by
    rw [List.take_succ_cons, show st "```" = backquoteChar :: st "``" from rfl]
    intro h
    injection h with h1 _
    exact absurd h1 (by decide)
  simp only [stripCodeFences]
  rw [hstrip, if_neg hne]

/-- The repair candidate of a fenced canonical object is the object text. -/
lemma jsonCandidate_fenceWrap (kvs : List (List Char × Json)) :
    jsonCandidate (fenceWrap (serializeJson (Json.obj kvs))) = serializeJson (Json.obj kvs) := by
  have hserial : serializeJson (Json.obj kvs)
      = lbraceChar :: (serializeMembersJ kvs ++ [rbraceChar]) := by
    simp [serializeJson]
  rw [jsonCandidate, stripCodeFences_fenceWrap, hserial, extractJsonBlock_brace]
  rfl

/-- The repair candidate of a trailing-comma object text is the text itself. -/
lemma jsonCandidate_tc (kvs : List (List Char × Json)) :
    jsonCandidate (serializeObjTrailingComma kvs) = serializeObjTrailingComma kvs := by
  have hsplit : serializeObjTrailingComma kvs
      = lbraceChar :: ((serializeMembersJ kvs ++ [',']) ++ [rbraceChar]) := by
    simp [serializeObjTrailingComma, List.append_assoc]
  rw [jsonCandidate, hsplit, stripCodeFences_brace, extractJsonBlock_brace]
  rfl

/-- Parsing a trailing-comma object text: the lenient grammar accepts, the
strict grammar rejects. -/
lemma parseVal_tc (kv : List Char × Json) (ms : List (List Char × Json))
    (len : Bool) (f : Nat)
    (hfuel : (serializeMembersJ (kv :: ms)).length + 1 < f) :
    parseVal len (f + 1) (serializeObjTrailingComma (kv :: ms))
      = (if len then some (Json.obj (kv :: ms), []) else none) := by
  have hL : serializeObjTrailingComma (kv :: ms)
      = lbraceChar :: (serializeMembersJ (kv :: ms) ++ [',', rbraceChar]) := rfl
  rw [hL, parseVal_brace]
  exact val_obj_cont len f (serializeMembersJ (kv :: ms)) [',', rbraceChar] _
    (by
      obtain ⟨t, hh⟩ := serializeMembersJ_head kv ms
      exact ⟨quoteChar, t, hh, by decide, by decide⟩)
    (by rw [rt_members_tc kv ms len f [] hfuel]; cases len <;> rfl)

/-- Length of the trailing-comma rendering. -/
lemma serializeObjTrailingComma_length (kvs : List (List Char × Json)) :
    (serializeObjTrailingComma kvs).length = (serializeMembersJ kvs).length + 3 := by
  simp [serializeObjTrailingComma]

/-- The strict parse of a trailing-comma object text fails. -/
lemma json_loads_tc (kv : List Char × Json) (ms : List (List Char × Json)) :
    json_loads (serializeObjTrailingComma (kv :: ms)) = none := by
  rw [json_loads, pyJsonLoads]
  have hfuel : (serializeMembersJ (kv :: ms)).length + 1
      < (serializeObjTrailingComma (kv :: ms)).length := by
    rw [serializeObjTrailingComma_length]
    omega
  rw [parseVal_tc kv ms false _ hfuel]
  rfl

/-- The lenient reparse of a trailing-comma object text recovers the object. -/
lemma repairedParse_tc (kv : List Char × Json) (ms : List (List Char × Json)) :
    repairedParse (serializeObjTrailingComma (kv :: ms)) = some (Json.obj (kv :: ms)) := by
  rw [repairedParse, pyJsonLoads]
  have hfuel : (serializeMembersJ (kv :: ms)).length + 1
      < (serializeObjTrailingComma (kv :: ms)).length := by
    rw [serializeObjTrailingComma_length]
    omega
  rw [parseVal_tc kv ms true _ hfuel]
  rfl

/-- Claim C1: the fallback ladder of `safe_json_loads`.  Any strictly
parseable text returns its parsed value; a canonically rendered JSON object
is returned parsed, also when wrapped in a fenced code block or given one
trailing comma before its closing brace; and when the final parse of the
repaired candidate fails, the whole operation fails — there is no further
internal retry. -/
theorem C1_fallback_ladder :
    (∀ (content : List Char) (v : Json),
      json_loads content = some v → safe_json_loads content = some v)
    ∧ (∀ kvs : List (List Char × Json),
        safe_json_loads (serializeJson (Json.obj kvs)) = some (Json.obj kvs))
    ∧ (∀ kvs : List (List Char × Json),
        safe_json_loads (fenceWrap (serializeJson (Json.obj kvs))) = some (Json.obj kvs))
    ∧ (∀ kvs : List (List Char × Json), kvs ≠ [] →
        safe_json_loads (serializeObjTrailingComma kvs) = some (Json.obj kvs))
    ∧ (∀ content : List Char,
        json_loads content = none → repairedParse (jsonCandidate content) = none →
        safe_json_loads content = none) := by
  refine ⟨?_, ?_, ?_, ?_, ?_⟩
  · intro content v h
    simp only [safe_json_loads]
    rw [h]
  · intro kvs
    simp only [safe_json_loads]
    rw [show json_loads (serializeJson (Json.obj kvs)) = some (Json.obj kvs) from
      pyJsonLoads_serialize false (Json.obj kvs)]
  · intro kvs
    simp only [safe_json_loads]
    rw [json_loads_fenceWrap, jsonCandidate_fenceWrap]
    exact pyJsonLoads_serialize true (Json.obj kvs)
  · intro kvs hne
    cases kvs with
    | nil => exact absurd rfl hne
    | cons kv ms =>
      simp only [safe_json_loads]
      rw [json_loads_tc, jsonCandidate_tc]
      exact repairedParse_tc kv ms
  · intro content h1 h2
    simp only [safe_json_loads]
    rw [h1, h2]

/-- Witness for C1: a concrete trailing-comma object is repaired, and a
concrete unparseable text fails both the direct parse and the repaired
reparse, so the whole operation fails. -/
theorem C1_fallback_ladder_witness :
    safe_json_loads (serializeObjTrailingComma [(st "a", Json.num 1)])
        = some (Json.obj [(st "a", Json.num 1)])
    ∧ safe_json_loads (st "no json here") = none :=
  ⟨C1_fallback_ladder.2.2.2.1 [(st "a", Json.num 1)] (List.cons_ne_nil _ _),
   C1_fallback_ladder.2.2.2.2 (st "no json here") rfl rfl⟩
